import Mathlib

/-!
Verification of the gematria/isopsephy core of the scriptures-js-core
repository.  JavaScript strings are modelled as `List Char` (the inputs of
interest are BMP code points, where UTF-16 units and code points coincide);
JavaScript numbers reached by these code paths are integers, modelled as `ℤ`.
Letter-value tables are association lists `List (Char × ℤ)` looked up with
`List.lookup`, matching the JS object-literal lookups `table[char]`.
Fallible functions (ones that can `throw`) return `Except JsError _`.
-/

set_option maxRecDepth 10000
set_option linter.unusedVariables false

/-- Model of the JavaScript error values thrown by this code base:
`GematriaError` (a named subclass) and plain `Error`. -/
inductive JsError where
  | gematriaError (msg : String)
  | error (msg : String)
deriving DecidableEq, Repr

/-- Characters matched by the JS regex class `\s` (whitespace), restricted to
the BMP: tab, LF, VT, FF, CR, space, NBSP, and the Unicode space separators,
line/paragraph separators and BOM. -/
def jsWhitespace (c : Char) : Bool :=
  c.toNat = 0x09 || c.toNat = 0x0A || c.toNat = 0x0B || c.toNat = 0x0C ||
  c.toNat = 0x0D || c.toNat = 0x20 || c.toNat = 0xA0 || c.toNat = 0x1680 ||
  (0x2000 ≤ c.toNat && c.toNat ≤ 0x200A) || c.toNat = 0x2028 ||
  c.toNat = 0x2029 || c.toNat = 0x202F || c.toNat = 0x205F ||
  c.toNat = 0x3000 || c.toNat = 0xFEFF

/-- Model of JS `String.prototype.trim`: drop leading and trailing whitespace. -/
def jsTrim (l : List Char) : List Char :=
  (l.dropWhile jsWhitespace).reverse.dropWhile jsWhitespace |>.reverse

/-- Model of JS `text.split(/\s+/)`.  Tokens are the maximal non-whitespace
runs; a leading separator contributes one leading empty token and a trailing
separator one trailing empty token (`" a ".split` gives `["", "a", ""]`,
`"".split` gives `[""]`, `" ".split` gives `["", ""]`). -/
def jsSplitWs (l : List Char) : List (List Char) :=
  match l with
  | [] => [[]]
  | c :: _ =>
    let toks := (l.splitOnP jsWhitespace).filter (fun t => t ≠ [])
    let toks := if jsWhitespace c then [] :: toks else toks
    if jsWhitespace (l.getLastD c) then toks ++ [[]] else toks

/-- Sum a list of characters through a letter-value table, unknown characters
contributing `0`: models `letters.reduce((sum, ch) => sum + (TABLE[ch] || 0), 0)`. -/
def sumTable (table : List (Char × Int)) (l : List Char) : Int :=
  l.foldl (fun s c => s + ((table.lookup c).getD 0)) 0

/-- First-occurrence deduplication: the iteration order of a JS
`new Set(array)`, which keeps each element at its first occurrence. -/
def dedupFirst (l : List Char) : List Char :=
  l.foldl (fun acc c => if acc.contains c then acc else acc ++ [c]) []

/-- Decimal digit sum, the result of
`String(value).split('').reduce((s, d) => s + parseInt(d, 10), 0)`
for a non-negative integer. -/
def digitSum (n : Nat) : Nat := (Nat.digits 10 n).sum

/-- The digital-root loop `while (value > 9) value = digitSum(value)` on
non-negative integers. -/
def digitalRootNat (n : Nat) : Nat :=
  if h : 9 < n then digitalRootNat (digitSum n) else n
termination_by n
decreasing_by
  have h1 : Nat.digits 10 n = n % 10 :: Nat.digits 10 (n / 10) :=
    Nat.digits_def' (by norm_num) (by omega)
  have h2 : (Nat.digits 10 (n / 10)).sum ≤ n / 10 := Nat.digit_sum_le 10 (n / 10)
  simp only [digitSum, h1, List.sum_cons]
  omega

/-- The function `digitalRoot` as implemented (identically) in `gematria/hebrew.ts`,
`gematria/greek.ts`, `gematria/english.ts` and `greek/isopsephy/compute.ts`:
a value of at most 9 (negative values included) is returned unchanged, larger
values are repeatedly replaced by their decimal digit sum. -/
def digitalRoot (v : Int) : Int :=
  if 9 < v then (digitalRootNat v.toNat : Int) else v

/-- Characters of the Hebrew Unicode block, the JS regex `[֐-׿]`. -/
def isHebrewChar (c : Char) : Bool := 0x0590 ≤ c.toNat && c.toNat ≤ 0x05FF

/-- Hebrew consonants, the JS regex `[א-ת]` (the 22 letters plus the
5 final forms). -/
def isHebrewLetter (c : Char) : Bool := 0x05D0 ≤ c.toNat && c.toNat ≤ 0x05EA

/-- Characters of the basic Greek block, the JS regex `[Ͱ-Ͽ]`. -/
def isBasicGreekChar (c : Char) : Bool := 0x0370 ≤ c.toNat && c.toNat ≤ 0x03FF

/-- Characters matched by `[Ͱ-Ͽἀ-῿]` (basic plus extended
Greek), the `GREEK_REGEX` of both Greek modules. -/
def isGreekChar (c : Char) : Bool :=
  isBasicGreekChar c || (0x1F00 ≤ c.toNat && c.toNat ≤ 0x1FFF)

/-- Combining diacritical marks, the JS regex `[̀-ͯ]`.  Note that
U+0345 COMBINING GREEK YPOGEGRAMMENI (the iota subscript) lies inside this
range. -/
def isCombiningMark (c : Char) : Bool := 0x0300 ≤ c.toNat && c.toNat ≤ 0x036F

/-- Character-wise model of Unicode NFD canonical decomposition
(`text.normalize('NFD')`), covering the precomposed Greek characters used in
this development; characters without an entry decompose to themselves.  The
mapped sequences are already in canonical order, so mapping character by
character agrees with full NFD on the strings considered here. -/
def nfdChar (c : Char) : List Char :=
  match c with
  | 'ᾳ' => ['α', 'ͅ']      -- ᾳ = alpha + iota subscript
  | 'ῃ' => ['η', 'ͅ']      -- ῃ = eta + iota subscript
  | 'ῳ' => ['ω', 'ͅ']      -- ῳ = omega + iota subscript
  | 'ᾴ' => ['α', '́', 'ͅ'] -- ᾴ = alpha + acute + iota subscript
  | 'ά' => ['α', '́']      -- ά
  | 'έ' => ['ε', '́']      -- έ
  | 'ή' => ['η', '́']      -- ή
  | 'ί' => ['ι', '́']      -- ί
  | 'ό' => ['ο', '́']      -- ό
  | 'ύ' => ['υ', '́']      -- ύ
  | 'ώ' => ['ω', '́']      -- ώ
  | 'ἀ' => ['α', '̓']      -- ἀ
  | 'ἐ' => ['ε', '̓']      -- ἐ
  | 'ἡ' => ['η', '̔']      -- ἡ
  | 'ἰ' => ['ι', '̓']      -- ἰ
  | 'ὁ' => ['ο', '̔']      -- ὁ
  | _ => [c]

/-- Model of `text.normalize('NFD')`. -/
def nfd (l : List Char) : List Char := l.flatMap nfdChar

/-- The `GematriaValues` shape of `models/types.ts`: the three values computed
by every per-language compute module. -/
structure GematriaValues where
  standard : Int
  ordinal : Int
  reduced : Int
deriving DecidableEq, Repr

/-! ## `src/gematria/hebrew.ts` (legacy Hebrew module) -/

namespace GematriaHebrew

/-- Table `HEBREW_STANDARD` (Mispar Hechrachi) of `gematria/hebrew.ts`. -/
def HEBREW_STANDARD : List (Char × Int) :=
  [('א', 1), ('ב', 2), ('ג', 3), ('ד', 4), ('ה', 5),
   ('ו', 6), ('ז', 7), ('ח', 8), ('ט', 9), ('י', 10),
   ('כ', 20), ('ך', 20), ('ל', 30), ('מ', 40), ('ם', 40),
   ('נ', 50), ('ן', 50), ('ס', 60), ('ע', 70), ('פ', 80),
   ('ף', 80), ('צ', 90), ('ץ', 90), ('ק', 100), ('ר', 200),
   ('ש', 300), ('ת', 400)]

/-- Table `HEBREW_ORDINAL` (Mispar Siduri) of `gematria/hebrew.ts`. -/
def HEBREW_ORDINAL : List (Char × Int) :=
  [('א', 1), ('ב', 2), ('ג', 3), ('ד', 4), ('ה', 5),
   ('ו', 6), ('ז', 7), ('ח', 8), ('ט', 9), ('י', 10),
   ('כ', 11), ('ך', 11), ('ל', 12), ('מ', 13), ('ם', 13),
   ('נ', 14), ('ן', 14), ('ס', 15), ('ע', 16), ('פ', 17),
   ('ף', 17), ('צ', 18), ('ץ', 18), ('ק', 19), ('ר', 20),
   ('ש', 21), ('ת', 22)]

/-- Function `isHebrew`: the text contains a character of the Hebrew block. -/
def isHebrew (l : List Char) : Bool := l.any isHebrewChar

/-- Function `extractHebrewLetters`: keep only Hebrew consonants. -/
def extractHebrewLetters (l : List Char) : List Char := l.filter isHebrewLetter

/-- Function `computeStandard` (Mispar Hechrachi). -/
def computeStandard (l : List Char) : Int :=
  sumTable HEBREW_STANDARD (extractHebrewLetters l)

/-- Function `computeOrdinal` (Mispar Siduri). -/
def computeOrdinal (l : List Char) : Int :=
  sumTable HEBREW_ORDINAL (extractHebrewLetters l)

/-- Function `computeReduced` (Mispar Katan): each letter's standard value is reduced
to a single digit before summing. -/
def computeReduced (l : List Char) : Int :=
  (extractHebrewLetters l).foldl
    (fun s c => s + digitalRoot ((HEBREW_STANDARD.lookup c).getD 0)) 0

/-- Function `computeHebrew`: the three Hebrew values. -/
def computeHebrew (l : List Char) : GematriaValues :=
  ⟨computeStandard l, computeOrdinal l, computeReduced l⟩

end GematriaHebrew

/-- The error message built by both `computeOrdinal` implementations
(`gematria/greek.ts` and `greek/isopsephy/compute.ts`, identical text) from
the deduplicated list of offending archaic letters joined by a comma. -/
def archaicOrdinalMessage (distinct : List Char) : String :=
  "Cannot calculate ordinal value: text contains archaic Greek letters (" ++
  String.intercalate ", " (distinct.map (fun c => c.toString)) ++
  "). Archaic letters (stigma Ϛ, koppa Ϟ, sampi Ϡ) have standard isopsephy " ++
  "values (6, 90, 900) but no ordinal position in the 24-letter Greek " ++
  "alphabet. Use computeStandard() for isopsephy or pass strict=false to " ++
  "skip archaic letters."

/-! ## `src/gematria/greek.ts` (legacy Greek module) -/

namespace GematriaGreek

/-- Table `GREEK_VALUES` of `gematria/greek.ts` (standard isopsephy,
both cases, final sigma = 200). -/
def GREEK_VALUES : List (Char × Int) :=
  [('Α', 1), ('Β', 2), ('Γ', 3), ('Δ', 4), ('Ε', 5),
   ('Ϛ', 6), ('Ζ', 7), ('Η', 8), ('Θ', 9), ('Ι', 10),
   ('Κ', 20), ('Λ', 30), ('Μ', 40), ('Ν', 50), ('Ξ', 60),
   ('Ο', 70), ('Π', 80), ('Ϟ', 90), ('Ρ', 100), ('Σ', 200),
   ('Τ', 300), ('Υ', 400), ('Φ', 500), ('Χ', 600), ('Ψ', 700),
   ('Ω', 800), ('Ϡ', 900),
   ('α', 1), ('β', 2), ('γ', 3), ('δ', 4), ('ε', 5),
   ('ϛ', 6), ('ζ', 7), ('η', 8), ('θ', 9), ('ι', 10),
   ('κ', 20), ('λ', 30), ('μ', 40), ('ν', 50), ('ξ', 60),
   ('ο', 70), ('π', 80), ('ϟ', 90), ('ρ', 100), ('σ', 200),
   ('ς', 200),
   ('τ', 300), ('υ', 400), ('φ', 500), ('χ', 600), ('ψ', 700),
   ('ω', 800), ('ϡ', 900)]

/-- Set `ARCHAIC_LETTERS` of `gematria/greek.ts`: stigma, koppa, sampi in
both cases. -/
def ARCHAIC_LETTERS : List Char := ['Ϛ', 'ϛ', 'Ϟ', 'ϟ', 'Ϡ', 'ϡ']

/-- Table `GREEK_ORDINAL` of `gematria/greek.ts` (alphabet positions 1-24,
archaic letters intentionally absent). -/
def GREEK_ORDINAL : List (Char × Int) :=
  [('Α', 1), ('α', 1), ('Β', 2), ('β', 2), ('Γ', 3), ('γ', 3),
   ('Δ', 4), ('δ', 4), ('Ε', 5), ('ε', 5), ('Ζ', 6), ('ζ', 6),
   ('Η', 7), ('η', 7), ('Θ', 8), ('θ', 8), ('Ι', 9), ('ι', 9),
   ('Κ', 10), ('κ', 10), ('Λ', 11), ('λ', 11), ('Μ', 12), ('μ', 12),
   ('Ν', 13), ('ν', 13), ('Ξ', 14), ('ξ', 14), ('Ο', 15), ('ο', 15),
   ('Π', 16), ('π', 16), ('Ρ', 17), ('ρ', 17), ('Σ', 18), ('σ', 18),
   ('ς', 18), ('Τ', 19), ('τ', 19), ('Υ', 20), ('υ', 20), ('Φ', 21),
   ('φ', 21), ('Χ', 22), ('χ', 22), ('Ψ', 23), ('ψ', 23), ('Ω', 24),
   ('ω', 24)]

/-- Function `isGreek`: the text contains a basic or extended Greek
character. -/
def isGreek (l : List Char) : Bool := l.any isGreekChar

/-- Function `removeDiacritics` of `gematria/greek.ts`: NFD-decompose, then
strip every combining mark in U+0300..U+036F.  Unlike the
`greek/isopsephy` module, this implementation does NOT first expand the iota
subscript U+0345, so the subscript is stripped together with the accents. -/
def removeDiacritics (l : List Char) : List Char :=
  (nfd l).filter (fun c => !isCombiningMark c)

/-- Function `extractGreekLetters` of `gematria/greek.ts`: strip diacritics,
then keep only basic-Greek-block characters. -/
def extractGreekLetters (l : List Char) : List Char :=
  (removeDiacritics l).filter isBasicGreekChar

/-- Function `computeStandard` of `gematria/greek.ts`: strip diacritics, fold
final sigma to sigma, then sum `GREEK_VALUES` with unknown characters
counting 0. -/
def computeStandard (l : List Char) : Int :=
  sumTable GREEK_VALUES
    ((removeDiacritics l).map (fun c => if c = 'ς' then 'σ' else c))

/-- Function `computeOrdinal` of `gematria/greek.ts`.  In strict mode
(the default for a plain `computeOrdinal(text)` call) the presence of any
archaic letter among the extracted letters raises an `Error` naming the
distinct offending letters; otherwise the `GREEK_ORDINAL` values are summed,
unknown characters (including the archaic letters) counting 0. -/
def computeOrdinal (l : List Char) (strict : Bool) : Except JsError Int :=
  let letters := extractGreekLetters l
  let archaic := letters.filter (fun c => ARCHAIC_LETTERS.contains c)
  if strict && archaic.length > 0 then
    .error (.error (archaicOrdinalMessage (dedupFirst archaic)))
  else
    .ok (sumTable GREEK_ORDINAL letters)

/-- Function `computeReduced` of `gematria/greek.ts`: digital root of the
standard value. -/
def computeReduced (l : List Char) : Int := digitalRoot (computeStandard l)

/-- Function `computeGreek`: the three Greek values; the ordinal is computed
in strict mode, so this call propagates the archaic-letter error. -/
def computeGreek (l : List Char) : Except JsError GematriaValues :=
  match computeOrdinal l true with
  | .error e => .error e
  | .ok o => .ok ⟨computeStandard l, o, computeReduced l⟩

end GematriaGreek

/-! ## `src/gematria/english.ts` (English cabala module) -/

namespace GematriaEnglish

/-- ASCII letters, the JS regex `[A-Za-z]`. -/
def isAsciiAlpha (c : Char) : Bool :=
  ('A' ≤ c && c ≤ 'Z') || ('a' ≤ c && c ≤ 'z')

/-- ASCII lower-casing, the effect of `toLowerCase()` on extracted ASCII
letters. -/
def asciiToLower (c : Char) : Char :=
  if 'A' ≤ c && c ≤ 'Z' then Char.ofNat (c.toNat + 32) else c

/-- Table `SIMPLE_ORDINAL`: A=1..Z=26 in both cases, built by the source's
generation loop. -/
def SIMPLE_ORDINAL : List (Char × Int) :=
  (List.range 26).map (fun i => (Char.ofNat (97 + i), (i + 1 : Int))) ++
  (List.range 26).map (fun i => (Char.ofNat (65 + i), (i + 1 : Int)))

/-- Table `AGRIPPA_LATIN` (Agrippa 1532): tiered values, both cases. -/
def AGRIPPA_LATIN : List (Char × Int) :=
  [('a', 1), ('A', 1), ('b', 2), ('B', 2), ('c', 3), ('C', 3),
   ('d', 4), ('D', 4), ('e', 5), ('E', 5), ('f', 6), ('F', 6),
   ('g', 7), ('G', 7), ('h', 8), ('H', 8), ('i', 9), ('I', 9),
   ('k', 10), ('K', 10), ('l', 20), ('L', 20), ('m', 30), ('M', 30),
   ('n', 40), ('N', 40), ('o', 50), ('O', 50), ('p', 60), ('P', 60),
   ('q', 70), ('Q', 70), ('r', 80), ('R', 80), ('s', 90), ('S', 90),
   ('t', 100), ('T', 100), ('u', 200), ('U', 200), ('x', 300), ('X', 300),
   ('y', 400), ('Y', 400), ('z', 500), ('Z', 500),
   ('j', 600), ('J', 600), ('v', 700), ('V', 700), ('w', 900), ('W', 900)]

/-- Table `WHITEHEAD_GREEK` (Whitehead 1899 pp. 58-59), in source order. -/
def WHITEHEAD_GREEK : List (Char × Int) :=
  [('a', 1), ('A', 1), ('b', 2), ('B', 2), ('g', 3), ('G', 3),
   ('d', 4), ('D', 4), ('v', 5), ('V', 5), ('w', 5), ('W', 5),
   ('e', 5), ('E', 5), ('z', 6), ('Z', 6), ('h', 8), ('H', 8),
   ('j', 9), ('J', 9), ('i', 9), ('I', 9), ('y', 9), ('Y', 9),
   ('k', 10), ('K', 10), ('l', 11), ('L', 11), ('m', 12), ('M', 12),
   ('n', 13), ('N', 13), ('x', 14), ('X', 14), ('s', 14), ('S', 14),
   ('o', 15), ('O', 15), ('p', 16), ('P', 16), ('r', 17), ('R', 17),
   ('t', 19), ('T', 19), ('u', 20), ('U', 20), ('f', 21), ('F', 21),
   ('c', 22), ('C', 22), ('q', 8), ('Q', 8)]

/-- Table `WHITEHEAD_HEBREW_ENGLISH` (Whitehead 1899 pp. 60-61). -/
def WHITEHEAD_HEBREW_ENGLISH : List (Char × Int) :=
  [('a', 1), ('A', 1), ('b', 2), ('B', 2), ('c', 20), ('C', 20),
   ('d', 4), ('D', 4), ('e', 5), ('E', 5), ('f', 80), ('F', 80),
   ('g', 3), ('G', 3), ('h', 5), ('H', 5), ('i', 10), ('I', 10),
   ('j', 10), ('J', 10), ('k', 100), ('K', 100), ('l', 30), ('L', 30),
   ('m', 40), ('M', 40), ('n', 50), ('N', 50), ('o', 70), ('O', 70),
   ('p', 80), ('P', 80), ('q', 100), ('Q', 100), ('r', 200), ('R', 200),
   ('s', 60), ('S', 60), ('t', 9), ('T', 9), ('u', 6), ('U', 6),
   ('v', 6), ('V', 6), ('w', 6), ('W', 6), ('x', 8), ('X', 8),
   ('y', 10), ('Y', 10), ('z', 7), ('Z', 7)]

/-- Table `WHITEHEAD_OBJECTIVE`: case-sensitive, A-Z = 1-26 then
a-z = 27-52, built by the source's two generation loops. -/
def WHITEHEAD_OBJECTIVE : List (Char × Int) :=
  (List.range 26).map (fun i => (Char.ofNat (65 + i), (i + 1 : Int))) ++
  (List.range 26).map (fun i => (Char.ofNat (97 + i), (i + 27 : Int)))

/-- Table `WHITEHEAD_SUBJECTIVE`: A-M = 1-13, N-T = 114-120, U-Z = 221-226,
case-insensitive. -/
def WHITEHEAD_SUBJECTIVE : List (Char × Int) :=
  [('A', 1), ('B', 2), ('C', 3), ('D', 4), ('E', 5), ('F', 6), ('G', 7),
   ('H', 8), ('I', 9), ('J', 10), ('K', 11), ('L', 12), ('M', 13),
   ('N', 114), ('O', 115), ('P', 116), ('Q', 117), ('R', 118), ('S', 119),
   ('T', 120),
   ('U', 221), ('V', 222), ('W', 223), ('X', 224), ('Y', 225), ('Z', 226),
   ('a', 1), ('b', 2), ('c', 3), ('d', 4), ('e', 5), ('f', 6), ('g', 7),
   ('h', 8), ('i', 9), ('j', 10), ('k', 11), ('l', 12), ('m', 13),
   ('n', 114), ('o', 115), ('p', 116), ('q', 117), ('r', 118), ('s', 119),
   ('t', 120),
   ('u', 221), ('v', 222), ('w', 223), ('x', 224), ('y', 225), ('z', 226)]

/-- Function `extractEnglishLetters`: keep only ASCII letters. -/
def extractEnglishLetters (l : List Char) : List Char := l.filter isAsciiAlpha

/-- Function `computeOrdinal`: extract, lower-case, sum `SIMPLE_ORDINAL`. -/
def computeOrdinal (l : List Char) : Int :=
  sumTable SIMPLE_ORDINAL ((extractEnglishLetters l).map asciiToLower)

/-- Function `computeAgrippa`. -/
def computeAgrippa (l : List Char) : Int :=
  sumTable AGRIPPA_LATIN (extractEnglishLetters l)

/-- Function `computeWhiteheadGreek`. -/
def computeWhiteheadGreek (l : List Char) : Int :=
  sumTable WHITEHEAD_GREEK (extractEnglishLetters l)

/-- Function `computeWhiteheadHebrew`. -/
def computeWhiteheadHebrew (l : List Char) : Int :=
  sumTable WHITEHEAD_HEBREW_ENGLISH (extractEnglishLetters l)

/-- Function `computeWhiteheadObjective` (case-sensitive). -/
def computeWhiteheadObjective (l : List Char) : Int :=
  sumTable WHITEHEAD_OBJECTIVE (extractEnglishLetters l)

/-- Function `computeWhiteheadSubjective`. -/
def computeWhiteheadSubjective (l : List Char) : Int :=
  sumTable WHITEHEAD_SUBJECTIVE (extractEnglishLetters l)

/-- Function `computeEnglish`: for English the ordinal is the standard, and
reduced is its digital root. -/
def computeEnglish (l : List Char) : GematriaValues :=
  ⟨computeOrdinal l, computeOrdinal l, digitalRoot (computeOrdinal l)⟩

end GematriaEnglish

/-! ## `src/greek/isopsephy/` (scholarly Greek isopsephy module) -/

namespace Isopsephy

/-- Table `STANDARD` of `greek/isopsephy/systems.ts` (Milesian values,
27 letters, both cases, final sigma = 200). -/
def STANDARD : List (Char × Int) :=
  [('Α', 1), ('Β', 2), ('Γ', 3), ('Δ', 4), ('Ε', 5),
   ('Ϛ', 6),
   ('Ζ', 7), ('Η', 8), ('Θ', 9),
   ('Ι', 10), ('Κ', 20), ('Λ', 30), ('Μ', 40), ('Ν', 50),
   ('Ξ', 60), ('Ο', 70), ('Π', 80),
   ('Ϟ', 90),
   ('Ρ', 100), ('Σ', 200), ('Τ', 300), ('Υ', 400), ('Φ', 500),
   ('Χ', 600), ('Ψ', 700), ('Ω', 800),
   ('Ϡ', 900),
   ('α', 1), ('β', 2), ('γ', 3), ('δ', 4), ('ε', 5),
   ('ϛ', 6),
   ('ζ', 7), ('η', 8), ('θ', 9),
   ('ι', 10), ('κ', 20), ('λ', 30), ('μ', 40), ('ν', 50),
   ('ξ', 60), ('ο', 70), ('π', 80),
   ('ϟ', 90),
   ('ρ', 100), ('σ', 200), ('ς', 200),
   ('τ', 300), ('υ', 400), ('φ', 500),
   ('χ', 600), ('ψ', 700), ('ω', 800),
   ('ϡ', 900)]

/-- Table `ORDINAL` of `greek/isopsephy/systems.ts` (positions 1-24, archaic
letters intentionally omitted). -/
def ORDINAL : List (Char × Int) :=
  [('Α', 1), ('Β', 2), ('Γ', 3), ('Δ', 4), ('Ε', 5), ('Ζ', 6),
   ('Η', 7), ('Θ', 8), ('Ι', 9), ('Κ', 10), ('Λ', 11), ('Μ', 12),
   ('Ν', 13), ('Ξ', 14), ('Ο', 15), ('Π', 16), ('Ρ', 17), ('Σ', 18),
   ('Τ', 19), ('Υ', 20), ('Φ', 21), ('Χ', 22), ('Ψ', 23), ('Ω', 24),
   ('α', 1), ('β', 2), ('γ', 3), ('δ', 4), ('ε', 5), ('ζ', 6),
   ('η', 7), ('θ', 8), ('ι', 9), ('κ', 10), ('λ', 11), ('μ', 12),
   ('ν', 13), ('ξ', 14), ('ο', 15), ('π', 16), ('ρ', 17), ('σ', 18),
   ('ς', 18),
   ('τ', 19), ('υ', 20), ('φ', 21), ('χ', 22), ('ψ', 23), ('ω', 24)]

/-- Set `ARCHAIC_LETTERS` of `greek/isopsephy/systems.ts`. -/
def ARCHAIC_LETTERS : List Char := ['Ϛ', 'ϛ', 'Ϟ', 'ϟ', 'Ϡ', 'ϡ']

/-- Function `isGreek` of `greek/isopsephy/compute.ts`. -/
def isGreek (l : List Char) : Bool := l.any isGreekChar

/-- Function `convertIotaSubscriptToAdscript`: NFD-decompose and replace each
U+0345 COMBINING GREEK YPOGEGRAMMENI by a full iota letter U+03B9. -/
def convertIotaSubscriptToAdscript (l : List Char) : List Char :=
  (nfd l).map (fun c => if c = 'ͅ' then 'ι' else c)

/-- Function `removeDiacritics` of `greek/isopsephy/compute.ts`: iota
subscripts are converted to adscripts FIRST, then every combining mark in
U+0300..U+036F is stripped. -/
def removeDiacritics (l : List Char) : List Char :=
  (convertIotaSubscriptToAdscript l).filter (fun c => !isCombiningMark c)

/-- Function `extractGreekLetters` of `greek/isopsephy/compute.ts`. -/
def extractGreekLetters (l : List Char) : List Char :=
  (removeDiacritics l).filter isBasicGreekChar

/-- Function `countWords` of `greek/isopsephy/compute.ts`: whitespace-split
tokens containing at least one Greek character.  (`GREEK_REGEX` in this file
has no `g` flag, so `test` is stateless here.) -/
def countWords (l : List Char) : Nat :=
  ((jsSplitWs l).filter (fun w => w.any isGreekChar)).length

/-- Function `computeStandard` of `greek/isopsephy/compute.ts`: strip
diacritics (after iota expansion) and sum `STANDARD`, unknown characters
counting 0. -/
def computeStandard (l : List Char) : Int :=
  sumTable STANDARD (removeDiacritics l)

/-- Function `computeOrdinal` of `greek/isopsephy/compute.ts`; `strict`
defaults to `true` in the source, and `computeAll` is the only internal
caller passing `false`. -/
def computeOrdinal (l : List Char) (strict : Bool) : Except JsError Int :=
  let letters := extractGreekLetters l
  let archaic := letters.filter (fun c => ARCHAIC_LETTERS.contains c)
  if strict && archaic.length > 0 then
    .error (.error (archaicOrdinalMessage (dedupFirst archaic)))
  else
    .ok (sumTable ORDINAL letters)

/-- Function `computeReduced` of `greek/isopsephy/compute.ts`. -/
def computeReduced (l : List Char) : Int := digitalRoot (computeStandard l)

/-- Function `computeAll` of `greek/isopsephy/compute.ts`: all three systems,
with the ordinal computed in lenient mode (`strict = false`) so archaic
letters do not raise. -/
def computeAll (l : List Char) : Except JsError GematriaValues :=
  match computeOrdinal l false with
  | .error e => .error e
  | .ok o => .ok ⟨computeStandard l, o, computeReduced l⟩

end Isopsephy

/-! ## `src/hebrew/gematria/` (nine-system Hebrew module with musafi) -/

namespace HebrewGematria

/-- Function `extractLetters` of `hebrew/gematria/index.ts`:
`text.match(/[א-ת]/g)` joined, i.e. the subsequence of Hebrew
consonants.  (`String.prototype.match` with a global regex always starts from
index 0 and leaves `lastIndex` at 0.) -/
def extractLetters (l : List Char) : List Char := l.filter isHebrewLetter

/-- One evaluation of `HEBREW_LETTER_REGEX.test(word)` where the regex was
declared with the `g` flag: the search starts at the regex object's saved
`lastIndex`; on success `lastIndex` moves past the matched letter, on failure
it resets to 0.  Returns the verdict and the new `lastIndex`. -/
def regexTestG (lastIndex : Nat) (w : List Char) : Bool × Nat :=
  match (w.drop lastIndex).findIdx? (fun c => isHebrewLetter c == true) with
  | some j => (true, lastIndex + j + 1)
  | none => (false, 0)

/-- Function `countWords` of `hebrew/gematria/index.ts`:
`text.split(/\s+/).filter(word => HEBREW_LETTER_REGEX.test(word)).length`.
Because `HEBREW_LETTER_REGEX` carries the `g` flag, the successive `test`
calls of the filter share the regex object's `lastIndex` state, threaded here
through the fold.  The initial `lastIndex` is 0: inside `computeWithTable`
the preceding `extractLetters` call (a global-regex `match`) has reset it. -/
def countWords (l : List Char) : Nat :=
  ((jsSplitWs l).foldl
    (fun acc w =>
      let r := regexTestG acc.2 w
      (acc.1 + (if r.1 then 1 else 0), r.2))
    ((0 : Nat), (0 : Nat))).1

/-- The `musafi` phrase-level modifier of `GematriaOptions`. -/
inductive Musafi where
  | words
  | letters
deriving DecidableEq, Repr

/-- The `GematriaOptions` of `hebrew/gematria/types.ts`. -/
structure GematriaOptions where
  musafi : Option Musafi := none
deriving DecidableEq, Repr

/-- The `GematriaResult` of `hebrew/gematria/types.ts`. -/
structure GematriaResult where
  value : Int
  system : String
  letterCount : Nat
  wordCount : Nat
  musafi : Option Musafi
deriving DecidableEq, Repr

/-- Function `computeWithTable` of `hebrew/gematria/index.ts`: extract the
consonants, sum the table (unknown characters counting 0), then apply the
musafi modifier by adding the word count or the letter count. -/
def computeWithTable (l : List Char) (table : List (Char × Int))
    (systemName : String) (options : GematriaOptions) : GematriaResult :=
  let letters := extractLetters l
  let letterCount := letters.length
  let wordCount := countWords l
  let value := sumTable table letters
  let value :=
    if options.musafi = some Musafi.words then value + wordCount
    else if options.musafi = some Musafi.letters then value + letterCount
    else value
  ⟨value, systemName, letterCount, wordCount, options.musafi⟩

/-- Table `MISPAR_HECHRACHI` of `hebrew/gematria/systems.ts`. -/
def MISPAR_HECHRACHI : List (Char × Int) :=
  [('א', 1), ('ב', 2), ('ג', 3), ('ד', 4), ('ה', 5),
   ('ו', 6), ('ז', 7), ('ח', 8), ('ט', 9),
   ('י', 10), ('כ', 20), ('ל', 30), ('מ', 40), ('נ', 50),
   ('ס', 60), ('ע', 70), ('פ', 80), ('צ', 90),
   ('ק', 100), ('ר', 200), ('ש', 300), ('ת', 400),
   ('ך', 20), ('ם', 40), ('ן', 50), ('ף', 80), ('ץ', 90)]

/-- Table `MISPAR_GADOL`: finals continue as hundreds 500-900. -/
def MISPAR_GADOL : List (Char × Int) :=
  [('א', 1), ('ב', 2), ('ג', 3), ('ד', 4), ('ה', 5),
   ('ו', 6), ('ז', 7), ('ח', 8), ('ט', 9),
   ('י', 10), ('כ', 20), ('ל', 30), ('מ', 40), ('נ', 50),
   ('ס', 60), ('ע', 70), ('פ', 80), ('צ', 90),
   ('ק', 100), ('ר', 200), ('ש', 300), ('ת', 400),
   ('ך', 500), ('ם', 600), ('ן', 700), ('ף', 800), ('ץ', 900)]

/-- Table `MISPAR_KATAN`: values reduced to single digits. -/
def MISPAR_KATAN : List (Char × Int) :=
  [('א', 1), ('ב', 2), ('ג', 3), ('ד', 4), ('ה', 5),
   ('ו', 6), ('ז', 7), ('ח', 8), ('ט', 9),
   ('י', 1), ('כ', 2), ('ל', 3), ('מ', 4), ('נ', 5),
   ('ס', 6), ('ע', 7), ('פ', 8), ('צ', 9),
   ('ק', 1), ('ר', 2), ('ש', 3), ('ת', 4),
   ('ך', 2), ('ם', 4), ('ן', 5), ('ף', 8), ('ץ', 9)]

/-- Table `MISPAR_KOLEL`: cumulative sums of standard values. -/
def MISPAR_KOLEL : List (Char × Int) :=
  [('א', 1), ('ב', 3), ('ג', 6), ('ד', 10), ('ה', 15),
   ('ו', 21), ('ז', 28), ('ח', 36), ('ט', 45),
   ('י', 55), ('כ', 75), ('ל', 105), ('מ', 145), ('נ', 195),
   ('ס', 255), ('ע', 325), ('פ', 405), ('צ', 495),
   ('ק', 595), ('ר', 795), ('ש', 1095), ('ת', 1495),
   ('ך', 75), ('ם', 145), ('ן', 195), ('ף', 405), ('ץ', 495)]

/-- Table `MISPAR_PERATI`: squares of standard values. -/
def MISPAR_PERATI : List (Char × Int) :=
  [('א', 1), ('ב', 4), ('ג', 9), ('ד', 16), ('ה', 25),
   ('ו', 36), ('ז', 49), ('ח', 64), ('ט', 81),
   ('י', 100), ('כ', 400), ('ל', 900), ('מ', 1600), ('נ', 2500),
   ('ס', 3600), ('ע', 4900), ('פ', 6400), ('צ', 8100),
   ('ק', 10000), ('ר', 40000), ('ש', 90000), ('ת', 160000),
   ('ך', 400), ('ם', 1600), ('ן', 2500), ('ף', 6400), ('ץ', 8100)]

/-- Table `MISPAR_MESHULASH`: cubes of standard values. -/
def MISPAR_MESHULASH : List (Char × Int) :=
  [('א', 1), ('ב', 8), ('ג', 27), ('ד', 64), ('ה', 125),
   ('ו', 216), ('ז', 343), ('ח', 512), ('ט', 729),
   ('י', 1000), ('כ', 8000), ('ל', 27000), ('מ', 64000), ('נ', 125000),
   ('ס', 216000), ('ע', 343000), ('פ', 512000), ('צ', 729000),
   ('ק', 1000000), ('ר', 8000000), ('ש', 27000000), ('ת', 64000000),
   ('ך', 8000), ('ם', 64000), ('ן', 125000), ('ף', 512000), ('ץ', 729000)]

/-- Table `MISPAR_CHITZON`: every letter counts 1. -/
def MISPAR_CHITZON : List (Char × Int) :=
  [('א', 1), ('ב', 1), ('ג', 1), ('ד', 1), ('ה', 1),
   ('ו', 1), ('ז', 1), ('ח', 1), ('ט', 1),
   ('י', 1), ('כ', 1), ('ל', 1), ('מ', 1), ('נ', 1),
   ('ס', 1), ('ע', 1), ('פ', 1), ('צ', 1),
   ('ק', 1), ('ר', 1), ('ש', 1), ('ת', 1),
   ('ך', 1), ('ם', 1), ('ן', 1), ('ף', 1), ('ץ', 1)]

/-- Table `MISPAR_SIDURI`: ordinal positions 1-22, finals as base forms. -/
def MISPAR_SIDURI : List (Char × Int) :=
  [('א', 1), ('ב', 2), ('ג', 3), ('ד', 4), ('ה', 5),
   ('ו', 6), ('ז', 7), ('ח', 8), ('ט', 9),
   ('י', 10), ('כ', 11), ('ל', 12), ('מ', 13), ('נ', 14),
   ('ס', 15), ('ע', 16), ('פ', 17), ('צ', 18),
   ('ק', 19), ('ר', 20), ('ש', 21), ('ת', 22),
   ('ך', 11), ('ם', 13), ('ן', 14), ('ף', 17), ('ץ', 18)]

/-- Table `MISPAR_HAKADMI`: triangular numbers of ordinal positions. -/
def MISPAR_HAKADMI : List (Char × Int) :=
  [('א', 1), ('ב', 3), ('ג', 6), ('ד', 10), ('ה', 15),
   ('ו', 21), ('ז', 28), ('ח', 36), ('ט', 45),
   ('י', 55), ('כ', 66), ('ל', 78), ('מ', 91), ('נ', 105),
   ('ס', 120), ('ע', 136), ('פ', 153), ('צ', 171),
   ('ק', 190), ('ר', 210), ('ש', 231), ('ת', 253),
   ('ך', 66), ('ם', 91), ('ן', 105), ('ף', 153), ('ץ', 171)]

/-- The nine letter-value tables of `hebrew/gematria/systems.ts`, in source
order. -/
def SYSTEM_TABLES : List (List (Char × Int)) :=
  [MISPAR_HECHRACHI, MISPAR_GADOL, MISPAR_KATAN, MISPAR_KOLEL, MISPAR_PERATI,
   MISPAR_MESHULASH, MISPAR_CHITZON, MISPAR_SIDURI, MISPAR_HAKADMI]

/-- Function `misparHechrachi`. -/
def misparHechrachi (l : List Char) (options : GematriaOptions) : Int :=
  (computeWithTable l MISPAR_HECHRACHI "misparHechrachi" options).value

/-- Function `misparGadol`. -/
def misparGadol (l : List Char) (options : GematriaOptions) : Int :=
  (computeWithTable l MISPAR_GADOL "misparGadol" options).value

/-- Function `misparKatan`. -/
def misparKatan (l : List Char) (options : GematriaOptions) : Int :=
  (computeWithTable l MISPAR_KATAN "misparKatan" options).value

/-- Function `misparSiduri`. -/
def misparSiduri (l : List Char) (options : GematriaOptions) : Int :=
  (computeWithTable l MISPAR_SIDURI "misparSiduri" options).value

end HebrewGematria

/-! ## `src/gematria/index.ts` (method registry and entry points) -/

namespace Gm

/-- The `GematriaLanguage` union type. -/
inductive Lang where
  | hebrew
  | greek
  | english
  | auto
deriving DecidableEq, Repr

/-- A registered `GematriaMethod`: canonical slug, display name, optional
per-language simple alias, language, and compute function. -/
structure GematriaMethod where
  slug : String
  name : String
  simpleName : Option String
  language : Lang
  compute : List Char → Except JsError Int

/-- JS `Map.set` on an association list: replace in place if the key exists,
append otherwise (preserving the JS Map iteration order). -/
def mapSet {κ ν : Type} [DecidableEq κ] (m : List (κ × ν)) (k : κ) (v : ν) :
    List (κ × ν) :=
  if (m.lookup k).isSome then
    m.map (fun p => if p.1 = k then (k, v) else p)
  else m ++ [(k, v)]

/-- The registry state: `methods` keyed by slug and `simpleNameIndex` keyed
by the template string `language:simpleName`, modelled as a pair. -/
structure Registry where
  methods : List (String × GematriaMethod)
  simpleNameIndex : List ((Lang × String) × GematriaMethod)

/-- Function `registerMethod`: insert by slug, and by (language, simple name)
when a simple name is present. -/
def registerMethod (r : Registry) (m : GematriaMethod) : Registry :=
  ⟨mapSet r.methods m.slug m,
   match m.simpleName with
   | some s => mapSet r.simpleNameIndex (m.language, s) m
   | none => r.simpleNameIndex⟩

/-- The module-load registration sequence of `gematria/index.ts`, in source
order: three Hebrew methods, three Greek methods, then the English systems
(`english_ordinal` is registered twice, the second call overwriting the slug
entry and adding the `standard` alias), and the `english_reduced` digital
root modifier. -/
def registrations : List GematriaMethod :=
  [⟨"mispar_hechrachi", "Mispar Hechrachi", some "standard", Lang.hebrew,
    fun l => .ok (GematriaHebrew.computeStandard l)⟩,
   ⟨"mispar_siduri", "Mispar Siduri", some "ordinal", Lang.hebrew,
    fun l => .ok (GematriaHebrew.computeOrdinal l)⟩,
   ⟨"mispar_katan", "Mispar Katan", some "reduced", Lang.hebrew,
    fun l => .ok (GematriaHebrew.computeReduced l)⟩,
   ⟨"isopsephy", "Isopsephy", some "standard", Lang.greek,
    fun l => .ok (GematriaGreek.computeStandard l)⟩,
   ⟨"isopsephy_ordinal", "Greek Ordinal", some "ordinal", Lang.greek,
    fun l => GematriaGreek.computeOrdinal l true⟩,
   ⟨"isopsephy_reduced", "Greek Reduced", some "reduced", Lang.greek,
    fun l => .ok (GematriaGreek.computeReduced l)⟩,
   ⟨"english_ordinal", "English Ordinal", some "ordinal", Lang.english,
    fun l => .ok (GematriaEnglish.computeOrdinal l)⟩,
   ⟨"english_ordinal", "Simple English", some "standard", Lang.english,
    fun l => .ok (GematriaEnglish.computeOrdinal l)⟩,
   ⟨"agrippa_latin", "Agrippa Latin", none, Lang.english,
    fun l => .ok (GematriaEnglish.computeAgrippa l)⟩,
   ⟨"whitehead_greek", "Whitehead Greek Cabala", none, Lang.english,
    fun l => .ok (GematriaEnglish.computeWhiteheadGreek l)⟩,
   ⟨"whitehead_hebrew", "Whitehead Hebrew-English", none, Lang.english,
    fun l => .ok (GematriaEnglish.computeWhiteheadHebrew l)⟩,
   ⟨"whitehead_objective", "Whitehead Objective Cabala", none, Lang.english,
    fun l => .ok (GematriaEnglish.computeWhiteheadObjective l)⟩,
   ⟨"whitehead_subjective", "Whitehead Subjective Cabala", none, Lang.english,
    fun l => .ok (GematriaEnglish.computeWhiteheadSubjective l)⟩,
   ⟨"english_reduced", "English Reduced", some "reduced", Lang.english,
    fun l => .ok (digitalRoot (GematriaEnglish.computeOrdinal l))⟩]

/-- The registry after module initialisation. -/
def registry : Registry := registrations.foldl registerMethod ⟨[], []⟩

/-- Function `getMethod`: exact slug match wins; otherwise, with an explicit
non-auto language, a single (language, alias) lookup; otherwise the alias is
searched across hebrew, greek, english in that fixed order. -/
def getMethod (name : String) (language : Option Lang) : Option GematriaMethod :=
  match registry.methods.lookup name with
  | some m => some m
  | none =>
    match language with
    | some lang =>
      if lang ≠ Lang.auto then registry.simpleNameIndex.lookup (lang, name)
      else searchAliases name
    | none => searchAliases name
where
  /-- The cross-language alias search loop over hebrew, greek, english. -/
  searchAliases (name : String) : Option GematriaMethod :=
    (registry.simpleNameIndex.lookup (Lang.hebrew, name)).orElse fun _ =>
    (registry.simpleNameIndex.lookup (Lang.greek, name)).orElse fun _ =>
    registry.simpleNameIndex.lookup (Lang.english, name)

/-- Function `detectLanguage`: Hebrew presence first, then Greek, defaulting
to English. -/
def detectLanguage (l : List Char) : Lang :=
  if GematriaHebrew.isHebrew l then Lang.hebrew
  else if GematriaGreek.isGreek l then Lang.greek
  else Lang.english

/-- Function `compute`, the top-level auto-detecting entry point:
`!text || !text.trim()` (equivalently: the trimmed text is empty) raises
`GematriaError('Input text cannot be empty')`; otherwise it dispatches on the
resolved language.  The `default` branch of the source's switch is
unreachable because language resolution never yields `auto`. -/
def compute (l : List Char) (language : Lang) : Except JsError GematriaValues :=
  if jsTrim l = [] then
    .error (.gematriaError "Input text cannot be empty")
  else
    match (if language = Lang.auto then detectLanguage l else language) with
    | Lang.hebrew => .ok (GematriaHebrew.computeHebrew l)
    | Lang.greek => GematriaGreek.computeGreek l
    | Lang.english => .ok (GematriaEnglish.computeEnglish l)
    | Lang.auto => .error (.gematriaError "Unsupported language: auto")

/-- The OWN properties of a `GematriaValues` object literal: `standard`,
`ordinal` and `reduced`.  This is only the first, shadowing layer of the JS
property access `values[method]`; the full lookup, which continues on the
prototype chain, is `valuesGetJs` below. -/
def valuesGet (v : GematriaValues) (k : String) : Option Int :=
  if k = "standard" then some v.standard
  else if k = "ordinal" then some v.ordinal
  else if k = "reduced" then some v.reduced
  else none

/-- Function `computeValue`: resolve the method (by slug or simple name) for
the resolved language and run it; if the method cannot be resolved, fall back
to `compute` and read the named property off the result, `?? 0`. -/
def computeValue (l : List Char) (method : String) (language : Lang) :
    Except JsError Int :=
  let lang := if language = Lang.auto then detectLanguage l else language
  match getMethod method (some lang) with
  | some m => m.compute l
  | none =>
    match compute l lang with
    | .error e => .error e
    | .ok values => .ok ((valuesGet values method).getD 0)

/-- The property names a plain JS object literal inherits from
`Object.prototype`.  Reading any of these off a `GematriaValues` object
yields the inherited member (a function, or `Object.prototype` itself in the
case of the dunder proto accessor), which is neither `null` nor
`undefined`. -/
def OBJECT_PROTOTYPE_KEYS : List String :=
  ["constructor", "hasOwnProperty", "isPrototypeOf", "propertyIsEnumerable",
   "toLocaleString", "toString", "valueOf", "__proto__",
   "__defineGetter__", "__defineSetter__", "__lookupGetter__",
   "__lookupSetter__"]

/-- A JS value that can flow out of the `values[method] ?? 0` fallback, and
hence out of the lazy container: a number, or a member inherited from
`Object.prototype` (identified by its property name). -/
inductive JsValue where
  | num (n : Int)
  | inherited (name : String)
deriving DecidableEq, Repr

/-- Faithful model of the JS property access `values[method]` on a
`GematriaValues` object literal: an own property (`standard`, `ordinal`,
`reduced`) shadows the prototype; otherwise the lookup continues on
`Object.prototype` and returns the inherited member for its keys; any other
name is `undefined` (`none`). -/
def valuesGetJs (v : GematriaValues) (k : String) : Option JsValue :=
  match valuesGet v k with
  | some n => some (JsValue.num n)
  | none =>
    if OBJECT_PROTOTYPE_KEYS.contains k then some (JsValue.inherited k)
    else none

/-- Function `computeValue` with its fallback `values[method] ?? 0`
modelled in full: a resolved method returns its numeric result; an
unresolved name falls back to `compute` and reads the property off the
result object, which yields the number of an own property, the inherited
member for an `Object.prototype` key (kept by `??` because it is not
nullish), and 0 for every other name (`undefined ?? 0`). -/
def computeValueJs (l : List Char) (method : String) (language : Lang) :
    Except JsError JsValue :=
  let lang := if language = Lang.auto then detectLanguage l else language
  match getMethod method (some lang) with
  | some m => (m.compute l).map JsValue.num
  | none =>
    match compute l lang with
    | .error e => .error e
    | .ok values => .ok ((valuesGetJs values method).getD (JsValue.num 0))

end Gm

/-! ## `src/gematria/proxy.ts` (lazy containers and verse aggregation) -/

namespace Proxy

/-- Function `normalizeLanguage`: substring match on the edition language
name, modelled on the lower-cased name. -/
def normalizeLanguage (editionLanguage : Option String) : Gm.Lang :=
  match editionLanguage with
  | none => Gm.Lang.auto
  | some s =>
    let lang := s.toLower
    if (lang.splitOn "hebrew").length > 1 then Gm.Lang.hebrew
    else if (lang.splitOn "greek").length > 1 then Gm.Lang.greek
    else if (lang.splitOn "english").length > 1 then Gm.Lang.english
    else Gm.Lang.auto

/-- Function `createGematriaProxy`: the word-level lazy container over one
text and one language.  The proxy is its `get` trap: reading a (string)
property runs `computeValue` and returns 0 if it throws.  The returned value
is a number except when the name reaches the fallback and hits an
`Object.prototype` key, in which case the inherited member itself escapes
through `?? 0` and is returned. -/
def createGematriaProxy (l : List Char) (language : Gm.Lang) :
    String → Gm.JsValue := fun prop =>
  match Gm.computeValueJs l prop language with
  | .ok v => v
  | .error _ => .num 0

/-- The Qere/Ketiv reading-variant tag of `models/types.ts`. -/
inductive Variant where
  | qere
  | ketiv
deriving DecidableEq, Repr

/-- The `WordMetadata` shape: the nested colophon flag. -/
structure WordMetadata where
  colophon : Option Bool := none
deriving DecidableEq, Repr

/-- The `Word` shape of `models/types.ts`, restricted to the fields the
aggregation layer reads.  `Option Bool` models an optional boolean field
(`none` = absent). -/
structure Word where
  position : Nat := 0
  text : List Char := []
  isColophon : Option Bool := none
  metadata : Option WordMetadata := none
  variant : Option Variant := none
deriving DecidableEq, Repr

/-- The `VerseGematriaOptions` of `models/types.ts`, with the destructuring
defaults of `createVerseGematriaProxy` (`variant = 'qere'`,
`includeColophons = false`) applied. -/
structure VerseGematriaOptions where
  variant : Variant := Variant.qere
  includeColophons : Bool := false
deriving DecidableEq, Repr

/-- Truthiness of `word.isColophon || word.metadata?.colophon`. -/
def colophonFlagged (w : Word) : Bool :=
  w.isColophon.getD false ||
  (w.metadata.map (fun m => m.colophon.getD false)).getD false

/-- The variant-skip test of `createVerseGematriaProxy`: a tagged word is
skipped when its tag is the variant not selected by the options; an untagged
word is never skipped. -/
def variantSkipped (opts : VerseGematriaOptions) (w : Word) : Bool :=
  match w.variant with
  | some wv =>
    (opts.variant = Variant.qere && wv = Variant.ketiv) ||
    (opts.variant = Variant.ketiv && wv = Variant.qere)
  | none => false

/-- The `computeAggregate` closure of `createVerseGematriaProxy`: iterate the
words in order, skip colophon-flagged words unless `includeColophons`, skip
deselected reading variants, and sum `computeValue` over the surviving words,
a per-word throw contributing nothing. -/
def computeAggregate (words : List Word) (language : Gm.Lang)
    (opts : VerseGematriaOptions) (method : String) : Int :=
  words.foldl
    (fun total w =>
      if !opts.includeColophons && colophonFlagged w then total
      else if variantSkipped opts w then total
      else
        match Gm.computeValue w.text method language with
        | .ok n => total + n
        | .error _ => total)
    0

/-- Function `createVerseGematriaProxy`, as its `get` trap. -/
def createVerseGematriaProxy (words : List Word) (language : Gm.Lang)
    (opts : VerseGematriaOptions) : String → Int :=
  fun prop => computeAggregate words language opts prop

/-- Function `createVerseGematriaWithColophonsProxy`: a thin alias for the
word-level container over the verse's full raw text. -/
def createVerseGematriaWithColophonsProxy (l : List Char)
    (language : Gm.Lang) : String → Gm.JsValue :=
  createGematriaProxy l language

end Proxy

/-! ## `src/query/verse.ts` (ingestion: scribal-note filtering) -/

namespace Query

/-- A raw word entry as supplied by a data package to `dataToVerse`.  An
`Option (Option String)` field distinguishes an absent field (`none`) from a
field explicitly present with value `null` (`some none`) and from a present
string value (`some (some s)`); `lemmaField` models the `lemma` field
(`lemma` is a reserved word in Lean). -/
structure RawWord where
  position : Nat := 0
  text : List Char := []
  lemmaField : Option (Option String) := none
  morph : Option (Option String) := none
  metadata : Option Proxy.WordMetadata := none
  isColophon : Option Bool := none
  variant : Option Proxy.Variant := none
deriving DecidableEq, Repr

/-- Function `isTextualCriticalNote` of `query/verse.ts`: the word is a
non-scriptural scribal annotation exactly when BOTH `lemma` and `morph` are
explicitly present-and-null (`'lemma' in w && w.lemma === null`) AND the text
contains no Hebrew and no Greek letters. -/
def isTextualCriticalNote (w : RawWord) : Bool :=
  let hasExplicitNullLemma := w.lemmaField = some none
  let hasExplicitNullMorph := w.morph = some none
  if !hasExplicitNullLemma || !hasExplicitNullMorph then false
  else if GematriaHebrew.isHebrew w.text || GematriaGreek.isGreek w.text then
    false
  else true

/-- JS `a || b` on two optional booleans (the value assigned to the
constructed word's `isColophon` field): the first operand if truthy, else the
second. -/
def jsOrOptionBool (a b : Option Bool) : Option Bool :=
  if a.getD false then a else b

/-- The word-list construction of `dataToVerse`: textual critical notes are
skipped, every surviving raw word becomes a `Word` carrying its text, the
merged colophon flag `w.isColophon || w.metadata?.colophon`, its metadata and
its variant tag. -/
def dataToVerseWords (ws : List RawWord) : List Proxy.Word :=
  (ws.filter (fun w => !isTextualCriticalNote w)).map
    (fun w =>
      ⟨w.position, w.text,
       jsOrOptionBool w.isColophon (w.metadata.bind (fun m => m.colophon)),
       w.metadata, w.variant⟩)

end Query

/-! ## `src/hebrew/temurah/index.ts` (letter-substitution ciphers) -/

namespace Temurah

/-- The `HEBREW_ALPHABET` constant: the 22 standard letters in order. -/
def HEBREW_ALPHABET : List Char :=
  ['א', 'ב', 'ג', 'ד', 'ה', 'ו', 'ז', 'ח', 'ט', 'י', 'כ',
   'ל', 'מ', 'נ', 'ס', 'ע', 'פ', 'צ', 'ק', 'ר', 'ש', 'ת']

/-- The `FINAL_TO_STANDARD` mapping. -/
def FINAL_TO_STANDARD : List (Char × Char) :=
  [('ך', 'כ'), ('ם', 'מ'), ('ן', 'נ'), ('ף', 'פ'), ('ץ', 'צ')]

/-- The `STANDARD_TO_FINAL` mapping. -/
def STANDARD_TO_FINAL : List (Char × Char) :=
  [('כ', 'ך'), ('מ', 'ם'), ('נ', 'ן'), ('פ', 'ף'), ('צ', 'ץ')]

/-- The `TemuraOptions`: whether final forms are preserved in the output
(default false). -/
structure TemuraOptions where
  preserveFinalForms : Bool := false
deriving DecidableEq, Repr

/-- Result of `buildAtbashMapping()`: position `i` of the alphabet maps to
position `len - 1 - i`, i.e. the alphabet zipped with its reverse. -/
def ATBASH_MAPPING : List (Char × Char) :=
  HEBREW_ALPHABET.zip HEBREW_ALPHABET.reverse

/-- The per-character body of `atbash`: fold a final form to its standard
form, apply the mirror mapping, optionally restore a final form, and pass
unmapped characters through unchanged. -/
def atbashChar (options : TemuraOptions) (c : Char) : Char :=
  let isFinal := (FINAL_TO_STANDARD.lookup c).isSome
  let standardLetter := (FINAL_TO_STANDARD.lookup c).getD c
  match ATBASH_MAPPING.lookup standardLetter with
  | some result =>
    if options.preserveFinalForms && isFinal &&
        (STANDARD_TO_FINAL.lookup result).isSome then
      (STANDARD_TO_FINAL.lookup result).getD result
    else result
  | none => c

/-- Function `atbash`: map `atbashChar` over the characters of the text. -/
def atbash (l : List Char) (options : TemuraOptions) : List Char :=
  l.map (atbashChar options)

end Temurah

/-! ## Helper lemmas -/

/-- A left fold that only adds is the starting value plus the sum of the
mapped list. -/
theorem foldl_add_int {α : Type} (g : α → Int) :
    ∀ (l : List α) (a : Int),
      l.foldl (fun s x => s + g x) a = a + (l.map g).sum := by
  intro l
  induction l with
  | nil => intro a; simp
  | cons x xs ih =>
    intro a
    simp only [List.foldl_cons, List.map_cons, List.sum_cons, ih]
    ring

/-- Unfold `sumTable` to a mapped sum. -/
theorem sumTable_eq (table : List (Char × Int)) (l : List Char) :
    sumTable table l = (l.map (fun c => (table.lookup c).getD 0)).sum := by
  simpa [sumTable] using foldl_add_int (fun c => (table.lookup c).getD 0) l 0

/-- A successful association-list lookup returns a stored pair. -/
theorem lookup_mem {table : List (Char × Int)} {c : Char} {v : Int}
    (h : table.lookup c = some v) : (c, v) ∈ table := by
  induction table with
  | nil => simp [List.lookup] at h
  | cons p t ih =>
    obtain ⟨pk, pv⟩ := p
    rw [List.lookup_cons] at h
    by_cases hc : c = pk
    · simp [hc] at h
      rw [hc, h]
      exact List.mem_cons_self _ _
    · simp [beq_false_of_ne hc] at h
      exact List.mem_cons_of_mem _ (ih h)

/-- If every stored value of a table is non-negative, so is every defaulted
lookup. -/
theorem lookup_getD_nonneg {table : List (Char × Int)}
    (h : ∀ p ∈ table, 0 ≤ p.2) (c : Char) : 0 ≤ (table.lookup c).getD 0 := by
  cases hl : table.lookup c with
  | none => simp
  | some v => simpa using h (c, v) (lookup_mem hl)

/-- A table with non-negative values sums to a non-negative total. -/
theorem sumTable_nonneg {table : List (Char × Int)}
    (h : ∀ p ∈ table, 0 ≤ p.2) (l : List Char) : 0 ≤ sumTable table l := by
  rw [sumTable_eq]
  refine List.sum_nonneg ?_
  intro x hx
  obtain ⟨c, _, rfl⟩ := List.mem_map.mp hx
  exact lookup_getD_nonneg h c

/-- Inserting a character without a table entry anywhere in the letter
sequence leaves the table sum unchanged: unknown characters contribute
exactly 0. -/
theorem sumTable_insert_unknown (table : List (Char × Int)) {c : Char}
    (h : table.lookup c = none) (l1 l2 : List Char) :
    sumTable table (l1 ++ c :: l2) = sumTable table (l1 ++ l2) := by
  simp [sumTable_eq, h]

/-- Characters failing a predicate may be dropped from a table sum when the
table has no entry for any of them. -/
theorem sumTable_filter_keep (table : List (Char × Int)) (p : Char → Bool)
    (h : ∀ c, p c = false → table.lookup c = none) :
    ∀ l, sumTable table l = sumTable table (l.filter p) := by
  intro l
  induction l with
  | nil => rfl
  | cons x xs ih =>
    by_cases hx : p x
    · simp [sumTable_eq, List.filter_cons, hx] at *
      omega
    · have hn := h x (by simpa using hx)
      simp [sumTable_eq, List.filter_cons, hx, hn] at *
      omega

/-- The generic step of `dedupFirst` preserves and reflects membership. -/
theorem dedupFirst_go_mem :
    ∀ (l : List Char) (acc : List Char) (a : Char),
      a ∈ l.foldl (fun acc c => if acc.contains c then acc else acc ++ [c]) acc ↔
        a ∈ acc ∨ a ∈ l := by
  intro l
  induction l with
  | nil => intro acc a; simp
  | cons c rest ih =>
    intro acc a
    simp only [List.foldl_cons, ih, List.mem_cons]
    by_cases hc : acc.contains c
    · rw [if_pos hc]
      have hcm : c ∈ acc := List.elem_iff.mp hc
      constructor
      · tauto
      · rintro (h | rfl | h) <;> tauto
    · rw [if_neg hc]
      simp only [List.mem_append, List.mem_singleton]
      tauto

/-- Membership is preserved by first-occurrence deduplication. -/
theorem dedupFirst_mem (l : List Char) (a : Char) :
    a ∈ dedupFirst l ↔ a ∈ l := by
  unfold dedupFirst
  rw [dedupFirst_go_mem]
  simp

/-- The generic step of `dedupFirst` preserves freedom from duplicates. -/
theorem dedupFirst_go_nodup :
    ∀ (l : List Char) (acc : List Char), acc.Nodup →
      (l.foldl (fun acc c => if acc.contains c then acc else acc ++ [c])
        acc).Nodup := by
  intro l
  induction l with
  | nil => intro acc h; simpa
  | cons c rest ih =>
    intro acc h
    simp only [List.foldl_cons]
    by_cases hc : acc.contains c
    · rw [if_pos hc]
      exact ih acc h
    · rw [if_neg hc]
      refine ih _ ?_
      refine List.Nodup.append h (List.nodup_singleton c) ?_
      intro x hx hxs
      rw [List.mem_singleton] at hxs
      subst hxs
      exact hc (List.elem_iff.mpr hx)

/-- First-occurrence deduplication yields a duplicate-free list. -/
theorem dedupFirst_nodup (l : List Char) : (dedupFirst l).Nodup := by
  unfold dedupFirst
  exact dedupFirst_go_nodup l [] List.nodup_nil

/-- The decimal digit sum of a positive number is positive. -/
theorem digitSum_pos {n : Nat} (h : 0 < n) : 0 < digitSum n := by
  have hne : n ≠ 0 := Nat.pos_iff_ne_zero.mp h
  have hnil : Nat.digits 10 n ≠ [] := Nat.digits_ne_nil_iff_ne_zero.mpr hne
  have hlast := Nat.getLast_digit_ne_zero 10 hne
  have hmem : (Nat.digits 10 n).getLast hnil ∈ Nat.digits 10 n :=
    List.getLast_mem hnil
  have hle : (Nat.digits 10 n).getLast hnil ≤ (Nat.digits 10 n).sum :=
    List.single_le_sum (fun _ _ => Nat.zero_le _) _ hmem
  have : 0 < (Nat.digits 10 n).getLast hnil := Nat.pos_of_ne_zero hlast
  unfold digitSum
  omega

/-- The decimal digit sum is congruent to the number modulo 9. -/
theorem digitSum_mod9 (n : Nat) : digitSum n % 9 = n % 9 :=
  (Nat.modEq_nine_digits_sum n).symm

/-- The decimal digit sum of a number with at least two digits is strictly
smaller. -/
theorem digitSum_lt {n : Nat} (h : 9 < n) : digitSum n < n := by
  have h1 : Nat.digits 10 n = n % 10 :: Nat.digits 10 (n / 10) :=
    Nat.digits_def' (by norm_num) (by omega)
  have h2 : (Nat.digits 10 (n / 10)).sum ≤ n / 10 := Nat.digit_sum_le 10 (n / 10)
  simp only [digitSum, h1, List.sum_cons]
  omega

/-- Characterisation of the digital-root loop on positive numbers: the result
is `n % 9`, with multiples of 9 giving 9. -/
theorem digitalRootNat_eq : ∀ n : Nat, 0 < n →
    digitalRootNat n = if n % 9 = 0 then 9 else n % 9 := by
  intro n
  induction n using Nat.strong_induction_on with
  | _ n ih =>
    intro hpos
    rw [digitalRootNat]
    by_cases h9 : 9 < n
    · rw [dif_pos h9]
      have hlt := digitSum_lt h9
      have hds := digitSum_pos hpos
      rw [ih (digitSum n) hlt hds, digitSum_mod9]
    · rw [dif_neg h9]
      interval_cases n <;> simp_all

/-- The digital root of a positive number lies between 1 and 9. -/
theorem digitalRootNat_bounds {n : Nat} (h : 0 < n) :
    1 ≤ digitalRootNat n ∧ digitalRootNat n ≤ 9 := by
  rw [digitalRootNat_eq n h]
  by_cases h9 : n % 9 = 0 <;> simp [h9] <;> omega

/-- The `digitalRoot` of the source, characterised on positive integers. -/
theorem digitalRoot_eq_of_pos {v : Int} (h : 0 < v) :
    digitalRoot v = if (9 : Int) ∣ v then 9 else v % 9 := by
  have hv9 : v.toNat % 9 = (v % 9).toNat := by omega
  have hdvd : ((9 : Int) ∣ v) ↔ v.toNat % 9 = 0 := by omega
  unfold digitalRoot
  by_cases h9 : 9 < v
  · rw [if_pos h9, digitalRootNat_eq v.toNat (by omega)]
    by_cases hd : (9 : Int) ∣ v
    · rw [if_pos (hdvd.mp hd), if_pos hd]
      rfl
    · rw [if_neg (fun hc => hd (hdvd.mpr hc)), if_neg hd]
      omega
  · rw [if_neg h9]
    by_cases hd : (9 : Int) ∣ v
    · rw [if_pos hd]
      omega
    · rw [if_neg hd]
      omega

/-- The digital root of a non-negative integer is non-negative. -/
theorem digitalRoot_nonneg {v : Int} (h : 0 ≤ v) : 0 ≤ digitalRoot v := by
  unfold digitalRoot
  by_cases h9 : 9 < v
  · rw [if_pos h9]
    exact Int.natCast_nonneg _
  · rwa [if_neg h9]

/-- The trimmed text is empty exactly when the text is empty or
whitespace-only. -/
theorem jsTrim_eq_nil_iff (l : List Char) :
    jsTrim l = [] ↔ ∀ c ∈ l, jsWhitespace c = true := by
  unfold jsTrim
  rw [List.reverse_eq_nil_iff, List.dropWhile_eq_nil_iff]
  have hsplit : l.takeWhile jsWhitespace ++ l.dropWhile jsWhitespace = l :=
    List.takeWhile_append_dropWhile jsWhitespace l
  constructor
  · intro h c hc
    rw [← hsplit] at hc
    rcases List.mem_append.mp hc with hc1 | hc2
    · exact List.mem_takeWhile_imp hc1
    · exact h c (List.mem_reverse.mpr hc2)
  · intro h c hc
    have hc2 : c ∈ l.dropWhile jsWhitespace := List.mem_reverse.mp hc
    exact h c (hsplit ▸ List.mem_append.mpr (Or.inr hc2))

/-- Language detection never yields `auto`. -/
theorem detectLanguage_ne_auto (l : List Char) :
    Gm.detectLanguage l ≠ Gm.Lang.auto := by
  unfold Gm.detectLanguage
  by_cases h1 : GematriaHebrew.isHebrew l <;>
    by_cases h2 : GematriaGreek.isGreek l <;> simp [h1, h2]

/-! ## Claim theorems -/

/-- C8: for every positive integer input the digital-root reducer returns a
single digit between 1 and 9, never 0 (exact multiples of 9 reduce to 9), it
is the identity on single digits, and `digitalRoot 9 = 9`,
`digitalRoot 18 = 9`, `digitalRoot 473 = 5`. -/
theorem digitalRoot_claim :
    (∀ v : Int, 0 < v →
      (1 ≤ digitalRoot v ∧ digitalRoot v ≤ 9) ∧
      ((9 : Int) ∣ v → digitalRoot v = 9) ∧
      (v ≤ 9 → digitalRoot v = v)) ∧
    digitalRoot 9 = 9 ∧ digitalRoot 18 = 9 ∧ digitalRoot 473 = 5 := by
  refine ⟨?_, ?_, ?_, ?_⟩
  · intro v hv
    have hch := digitalRoot_eq_of_pos hv
    refine ⟨?_, ?_, ?_⟩
    · rw [hch]
      by_cases hd : (9 : Int) ∣ v
      · rw [if_pos hd]
        omega
      · rw [if_neg hd]
        omega
    · intro hd
      rw [hch, if_pos hd]
    · intro h9
      unfold digitalRoot
      rw [if_neg (by omega)]
  · unfold digitalRoot
    norm_num
  · rw [digitalRoot_eq_of_pos (by norm_num), if_pos (by norm_num)]
  · rw [digitalRoot_eq_of_pos (by norm_num), if_neg (by omega)]
    decide

/-- Witness for C8 at the concrete inputs 18 (a multiple of 9) and 7 (a
single digit). -/
theorem digitalRoot_claim_witness :
    (0 < (18 : Int) ∧ 1 ≤ digitalRoot 18 ∧ digitalRoot 18 ≤ 9 ∧
      digitalRoot 18 = 9) ∧
    (0 < (7 : Int) ∧ digitalRoot 7 = 7) :=
  ⟨⟨by norm_num, (digitalRoot_claim.1 18 (by norm_num)).1.1,
    (digitalRoot_claim.1 18 (by norm_num)).1.2,
    (digitalRoot_claim.1 18 (by norm_num)).2.1 (by norm_num)⟩,
   by norm_num, (digitalRoot_claim.1 7 (by norm_num)).2.2 (by norm_num)⟩

/-- C9: with default options, the Atbash cipher is an involution on every
string consisting of letters of the 22-letter Hebrew alphabet. -/
theorem atbash_involution (l : List Char)
    (h : ∀ c ∈ l, c ∈ Temurah.HEBREW_ALPHABET) :
    Temurah.atbash (Temurah.atbash l ⟨false⟩) ⟨false⟩ = l := by
  unfold Temurah.atbash
  rw [List.map_map]
  have key : ∀ c ∈ Temurah.HEBREW_ALPHABET,
      Temurah.atbashChar ⟨false⟩ (Temurah.atbashChar ⟨false⟩ c) = c := by decide
  have : l.map (Temurah.atbashChar ⟨false⟩ ∘ Temurah.atbashChar ⟨false⟩) =
      l.map id := List.map_congr_left (fun a ha => key a (h a ha))
  simpa using this

/-- Witness for C9 at the Hebrew word בבל (Babel). -/
theorem atbash_involution_witness :
    (∀ c ∈ "בבל".data, c ∈ Temurah.HEBREW_ALPHABET) ∧
    Temurah.atbash (Temurah.atbash "בבל".data ⟨false⟩) ⟨false⟩ = "בבל".data :=
  ⟨by decide, atbash_involution "בבל".data (by decide)⟩

/-- C6: a word entry is classified as a non-scriptural scribal annotation
exactly when both its lemma and morphology fields are explicitly
present-and-null AND its text has no Hebrew or Greek letters; `dataToVerse`
drops exactly those entries from the verse's word list; the iff also shows a
word merely lacking the fields (`lemmaField = none` fails
`lemmaField = some none`) is never classified.  The concrete conjuncts give
the spec's scenario: `lemma: null, morph: null, text: "BHS."` is excluded,
the same text with both fields absent is not. -/
theorem isTextualCriticalNote_claim :
    (∀ w : Query.RawWord,
      Query.isTextualCriticalNote w = true ↔
        (w.lemmaField = some none ∧ w.morph = some none ∧
         GematriaHebrew.isHebrew w.text = false ∧
         GematriaGreek.isGreek w.text = false)) ∧
    (∀ ws : List Query.RawWord,
      (Query.dataToVerseWords ws).map Proxy.Word.text =
        (ws.filter (fun w => !Query.isTextualCriticalNote w)).map
          Query.RawWord.text) ∧
    Query.isTextualCriticalNote
      ⟨1, "BHS.".data, some none, some none, none, none, none⟩ = true ∧
    Query.isTextualCriticalNote
      ⟨1, "BHS.".data, none, none, none, none, none⟩ = false := by
  refine ⟨?_, ?_, by decide, by decide⟩
  · intro w
    unfold Query.isTextualCriticalNote
    by_cases h1 : w.lemmaField = some none <;>
      by_cases h2 : w.morph = some none <;>
        by_cases h3 : GematriaHebrew.isHebrew w.text <;>
          by_cases h4 : GematriaGreek.isGreek w.text <;>
            simp [h1, h2, h3, h4]
  · intro ws
    unfold Query.dataToVerseWords
    rw [List.map_map]
    rfl

/-- Peeling one character off a table sum. -/
theorem sumTable_cons (table : List (Char × Int)) (c : Char) (l : List Char) :
    sumTable table (c :: l) = (table.lookup c).getD 0 + sumTable table l := by
  rw [sumTable_eq, List.map_cons, List.sum_cons, ← sumTable_eq]

/-- Replacing each iota subscript by a full iota before stripping combining
marks adds exactly 10 (the standard value of iota) per subscript, compared to
stripping without the expansion. -/
theorem iota_expansion_shift (m : List Char) :
    sumTable Isopsephy.STANDARD
      ((m.map (fun c => if c = 'ͅ' then 'ι' else c)).filter
        (fun c => !isCombiningMark c)) =
    sumTable Isopsephy.STANDARD (m.filter (fun c => !isCombiningMark c)) +
      10 * (m.count 'ͅ' : Int) := by
  induction m with
  | nil => rfl
  | cons c t ih =>
    rw [List.map_cons]
    by_cases hc : c = 'ͅ'
    · subst hc
      rw [if_pos rfl, List.filter_cons_of_pos (by decide),
        List.filter_cons_of_neg (by decide), List.count_cons_self,
        sumTable_cons, ih]
      have hiota : (Isopsephy.STANDARD.lookup 'ι').getD 0 = 10 := by decide
      rw [hiota]
      push_cast
      ring
    · rw [if_neg hc]
      rw [List.count_cons_of_ne (Ne.symm hc)]
      by_cases hm : isCombiningMark c
      · rw [List.filter_cons_of_neg (by simp [hm]),
          List.filter_cons_of_neg (by simp [hm])]
        exact ih
      · rw [List.filter_cons_of_pos (by simp [hm]),
          List.filter_cons_of_pos (by simp [hm]),
          sumTable_cons, sumTable_cons, ih]
        ring

/-- C1 (code bug): in the `greek/isopsephy` module the iota subscript is
expanded to a full iota before diacritics are stripped, so every subscript
contributes its full standard value 10 (first conjunct), and ᾳ = αι = 11.
But the legacy `gematria/greek.ts` module — the one wired into the
auto-detecting `compute`/`computeGreek` pipeline and into the repo's own test
"counts iota subscripts as iotas" — strips U+0345 without expanding it, so
its standard value of ᾳ is 1, not 11 (last conjunct). -/
theorem iotaSubscript_claim :
    (∀ l : List Char,
      Isopsephy.computeStandard l =
        sumTable Isopsephy.STANDARD
          ((nfd l).filter (fun c => !isCombiningMark c)) +
          10 * ((nfd l).count 'ͅ' : Int)) ∧
    Isopsephy.computeStandard "ᾳ".data = 11 ∧
    Isopsephy.computeStandard "αι".data = 11 ∧
    GematriaGreek.computeStandard "ᾳ".data = 1 ∧
    GematriaGreek.computeStandard "αι".data = 11 := by
  refine ⟨?_, by decide, by decide, by decide, by decide⟩
  intro l
  unfold Isopsephy.computeStandard Isopsephy.removeDiacritics
    Isopsephy.convertIotaSubscriptToAdscript
  exact iota_expansion_shift (nfd l)

/-- C7 (code bug): the musafi modifier is additive — for every text, table
and system name, `musafi: 'letters'` adds exactly the extracted-consonant
count and `musafi: 'words'` adds exactly `countWords` of the text, on top of
the unmodified sum (first two conjuncts, uniform in the table).  But
`countWords` is NOT the number of whitespace-delimited tokens containing a
Hebrew consonant: `HEBREW_LETTER_REGEX` carries the `g` flag, so the `test`
calls inside the filter share `lastIndex` state.  On "א א" the second
single-letter token is tested starting at index 1 and fails, so `countWords`
returns 1 while the token count is 2, and the musafi-words value is 3 where
the claim requires 2 + 2 = 4. -/
theorem musafi_claim :
    (∀ (l : List Char) (table : List (Char × Int)) (name : String),
      (HebrewGematria.computeWithTable l table name
          ⟨some HebrewGematria.Musafi.letters⟩).value =
        (HebrewGematria.computeWithTable l table name ⟨none⟩).value +
          (HebrewGematria.extractLetters l).length) ∧
    (∀ (l : List Char) (table : List (Char × Int)) (name : String),
      (HebrewGematria.computeWithTable l table name
          ⟨some HebrewGematria.Musafi.words⟩).value =
        (HebrewGematria.computeWithTable l table name ⟨none⟩).value +
          HebrewGematria.countWords l) ∧
    HebrewGematria.countWords "א א".data = 1 ∧
    ((jsSplitWs "א א".data).filter (fun w => w.any isHebrewLetter)).length
      = 2 ∧
    HebrewGematria.misparHechrachi "א א".data ⟨none⟩ = 2 ∧
    HebrewGematria.misparHechrachi "א א".data
      ⟨some HebrewGematria.Musafi.words⟩ = 3 := by
  refine ⟨?_, ?_, by decide, by decide, by decide, by decide⟩
  · intro l table name
    simp [HebrewGematria.computeWithTable]
  · intro l table name
    simp [HebrewGematria.computeWithTable]

/-- The legacy Greek ordinal either raises the archaic-letter `Error` or
returns the ordinal sum; in particular it never raises a `GematriaError`. -/
theorem computeOrdinal_shape (l : List Char) (strict : Bool) :
    (∃ msg, GematriaGreek.computeOrdinal l strict = .error (.error msg)) ∨
    GematriaGreek.computeOrdinal l strict =
      .ok (sumTable GematriaGreek.GREEK_ORDINAL
        (GematriaGreek.extractGreekLetters l)) := by
  unfold GematriaGreek.computeOrdinal
  dsimp only
  by_cases hcond :
      (strict && decide
        ((List.filter (fun c => GematriaGreek.ARCHAIC_LETTERS.contains c)
          (GematriaGreek.extractGreekLetters l)).length > 0)) = true
  · rw [if_pos hcond]
    exact Or.inl ⟨_, rfl⟩
  · rw [if_neg hcond]
    exact Or.inr rfl

/-- C3: the top-level auto-detecting `compute` raises the empty-input
`GematriaError` exactly when the input is empty or whitespace-only, while the
lower-level per-language compute functions all return 0 on the empty string
instead of raising. -/
theorem emptyInput_claim :
    (∀ l : List Char,
      Gm.compute l Gm.Lang.auto =
          .error (.gematriaError "Input text cannot be empty") ↔
        ∀ c ∈ l, jsWhitespace c = true) ∧
    GematriaHebrew.computeStandard [] = 0 ∧
    GematriaHebrew.computeOrdinal [] = 0 ∧
    GematriaHebrew.computeReduced [] = 0 ∧
    GematriaGreek.computeStandard [] = 0 ∧
    GematriaGreek.computeOrdinal [] true = .ok 0 ∧
    GematriaGreek.computeReduced [] = 0 ∧
    GematriaEnglish.computeOrdinal [] = 0 ∧
    Isopsephy.computeStandard [] = 0 ∧
    Isopsephy.computeOrdinal [] true = .ok 0 ∧
    HebrewGematria.misparHechrachi [] ⟨none⟩ = 0 := by
  refine ⟨?_, by decide, by decide, by decide, by decide, rfl,
    by decide, by decide, by decide, rfl, by decide⟩
  intro l
  rw [← jsTrim_eq_nil_iff]
  unfold Gm.compute
  by_cases ht : jsTrim l = []
  · simp [ht]
  · rw [if_neg ht]
    simp only [ht, iff_false]
    intro h
    rcases hlang : Gm.detectLanguage l with _ | _ | _ | _
    · simp [hlang] at h
    · rw [hlang] at h
      unfold GematriaGreek.computeGreek at h
      rcases computeOrdinal_shape l true with ⟨msg, he⟩ | hok
      · rw [he] at h
        simp at h
      · rw [hok] at h
        simp at h
    · simp [hlang] at h
    · exact detectLanguage_ne_auto l hlang

/-- Archaic letters have no entry in the isopsephy `ORDINAL` table. -/
theorem archaic_ordinal_lookup_none {c : Char}
    (h : Isopsephy.ARCHAIC_LETTERS.contains c = true) :
    Isopsephy.ORDINAL.lookup c = none := by
  have hmem : c ∈ Isopsephy.ARCHAIC_LETTERS := List.elem_iff.mp h
  simp only [Isopsephy.ARCHAIC_LETTERS, List.mem_cons,
    List.not_mem_nil, or_false] at hmem
  rcases hmem with rfl | rfl | rfl | rfl | rfl | rfl <;> decide

/-- C2: the strict Greek ordinal (the default of the single-result API)
fails exactly when an archaic letter is among the extracted letters; the
error carries the first-occurrence-deduplicated list of exactly the distinct
offending letters; lenient mode always returns the ordinal sum, in which
archaic letters contribute 0 (dropping them does not change the sum); and
`computeAll` (the compute-all convenience API) uses the lenient value. -/
theorem greekOrdinalStrict_claim (l : List Char) :
    ((Isopsephy.computeOrdinal l true).isOk = false ↔
      ∃ c ∈ Isopsephy.extractGreekLetters l,
        c ∈ Isopsephy.ARCHAIC_LETTERS) ∧
    (((Isopsephy.extractGreekLetters l).filter
        (fun c => Isopsephy.ARCHAIC_LETTERS.contains c)) ≠ [] →
      Isopsephy.computeOrdinal l true =
        .error (.error (archaicOrdinalMessage (dedupFirst
          ((Isopsephy.extractGreekLetters l).filter
            (fun c => Isopsephy.ARCHAIC_LETTERS.contains c)))))) ∧
    (∀ c, c ∈ dedupFirst ((Isopsephy.extractGreekLetters l).filter
          (fun c => Isopsephy.ARCHAIC_LETTERS.contains c)) ↔
      (c ∈ Isopsephy.extractGreekLetters l ∧
        c ∈ Isopsephy.ARCHAIC_LETTERS)) ∧
    (dedupFirst ((Isopsephy.extractGreekLetters l).filter
      (fun c => Isopsephy.ARCHAIC_LETTERS.contains c))).Nodup ∧
    Isopsephy.computeOrdinal l false =
      .ok (sumTable Isopsephy.ORDINAL (Isopsephy.extractGreekLetters l)) ∧
    sumTable Isopsephy.ORDINAL (Isopsephy.extractGreekLetters l) =
      sumTable Isopsephy.ORDINAL ((Isopsephy.extractGreekLetters l).filter
        (fun c => !Isopsephy.ARCHAIC_LETTERS.contains c)) ∧
    Isopsephy.computeAll l =
      .ok ⟨Isopsephy.computeStandard l,
        sumTable Isopsephy.ORDINAL (Isopsephy.extractGreekLetters l),
        Isopsephy.computeReduced l⟩ := by
  have hlenient : Isopsephy.computeOrdinal l false =
      .ok (sumTable Isopsephy.ORDINAL (Isopsephy.extractGreekLetters l)) :=
    rfl
  refine ⟨?_, ?_, ?_, dedupFirst_nodup _, hlenient, ?_, ?_⟩
  · unfold Isopsephy.computeOrdinal
    dsimp only
    by_cases hcond : (decide
        ((List.filter (fun c => Isopsephy.ARCHAIC_LETTERS.contains c)
          (Isopsephy.extractGreekLetters l)).length > 0)) = true
    · rw [Bool.true_and, if_pos hcond]
      simp only [Except.isOk, Except.toBool, true_iff]
      have : ((Isopsephy.extractGreekLetters l).filter
          (fun c => Isopsephy.ARCHAIC_LETTERS.contains c)) ≠ [] := by
        intro hnil
        rw [decide_eq_true_iff, hnil] at hcond
        simp at hcond
      obtain ⟨c, hc⟩ := List.exists_mem_of_ne_nil _ this
      have := List.mem_filter.mp hc
      exact ⟨c, this.1, List.elem_iff.mp this.2⟩
    · rw [Bool.true_and, if_neg hcond]
      constructor
      · intro hfalse
        simp [Except.isOk, Except.toBool] at hfalse
      · rintro ⟨c, hcl, hca⟩
        have hd : (decide
            ((List.filter (fun c => Isopsephy.ARCHAIC_LETTERS.contains c)
              (Isopsephy.extractGreekLetters l)).length > 0)) = true := by
          rw [decide_eq_true_iff]
          refine List.length_pos.mpr ?_
          intro hnil
          rw [List.filter_eq_nil] at hnil
          exact hnil c hcl (List.elem_iff.mpr hca)
        exact absurd hd hcond
  · intro hne
    unfold Isopsephy.computeOrdinal
    dsimp only
    rw [Bool.true_and, if_pos]
    rw [decide_eq_true_iff]
    exact List.length_pos.mpr hne
  · intro c
    rw [dedupFirst_mem, List.mem_filter]
    constructor
    · rintro ⟨h1, h2⟩
      exact ⟨h1, List.elem_iff.mp h2⟩
    · rintro ⟨h1, h2⟩
      exact ⟨h1, List.elem_iff.mpr h2⟩
  · exact sumTable_filter_keep Isopsephy.ORDINAL
      (fun c => !Isopsephy.ARCHAIC_LETTERS.contains c)
      (fun c hc => archaic_ordinal_lookup_none (by simpa using hc))
      (Isopsephy.extractGreekLetters l)
  · unfold Isopsephy.computeAll
    rw [hlenient]

/-- Witness for C2 at the concrete text αϛϟϛ: strict mode raises the error
naming stigma and koppa once each, lenient mode returns 1 (alpha only). -/
theorem greekOrdinalStrict_claim_witness :
    Isopsephy.computeOrdinal "αϛϟϛ".data true =
      .error (.error (archaicOrdinalMessage ['ϛ', 'ϟ'])) ∧
    Isopsephy.computeOrdinal "αϛϟϛ".data false = .ok 1 := by
  constructor
  · have h := (greekOrdinalStrict_claim "αϛϟϛ".data).2.1 (by decide)
    rw [h]
    have hd : dedupFirst (((Isopsephy.extractGreekLetters "αϛϟϛ".data)).filter
        (fun c => Isopsephy.ARCHAIC_LETTERS.contains c)) = ['ϛ', 'ϟ'] := by
      decide
    rw [hd]
  · have h := (greekOrdinalStrict_claim "αϛϟϛ".data).2.2.2.2.1
    rw [h]
    have hs : sumTable Isopsephy.ORDINAL
        (Isopsephy.extractGreekLetters "αϛϟϛ".data) = 1 := by decide
    rw [hs]

/-- C4 (counterexample): the claim "reading a named property returns 0 when
the named method cannot be resolved" fails at the property name `toString`
on the Hebrew text אב: the name resolves to no registered method, yet the
fallback `values[method] ?? 0` finds the member inherited from
`Object.prototype`, which is not nullish, so the proxy read returns that
function rather than 0. -/
theorem silentZero_counterexample :
    (Gm.getMethod "toString" (some Gm.Lang.hebrew)).isNone = true ∧
    Proxy.createGematriaProxy "אב".data Gm.Lang.hebrew "toString" =
      Gm.JsValue.inherited "toString" ∧
    Proxy.createGematriaProxy "אב".data Gm.Lang.hebrew "toString" ≠
      Gm.JsValue.num 0 :=
  ⟨by decide, by decide, by decide⟩

/-- C4 (amended): the word-level lazy container's property read is total and
never raises; it returns 0 whenever the computation throws, and 0 whenever
the named method cannot be resolved and the name is neither an own property
of the fallback result (`standard`/`ordinal`/`reduced`) nor one of the
properties a plain object inherits from `Object.prototype`; for an inherited
name that reaches the fallback the read returns the inherited member
instead of 0. -/
theorem silentZero_amended_claim :
    (∀ (l : List Char) (prop : String) (language : Gm.Lang),
      (Gm.computeValueJs l prop language).isOk = false →
      Proxy.createGematriaProxy l language prop = Gm.JsValue.num 0) ∧
    (∀ (l : List Char) (prop : String) (language : Gm.Lang),
      Gm.getMethod prop (some (if language = Gm.Lang.auto then
        Gm.detectLanguage l else language)) = none →
      prop ≠ "standard" → prop ≠ "ordinal" → prop ≠ "reduced" →
      Gm.OBJECT_PROTOTYPE_KEYS.contains prop = false →
      Proxy.createGematriaProxy l language prop = Gm.JsValue.num 0) ∧
    (∀ (l : List Char) (prop : String) (language : Gm.Lang)
      (v : GematriaValues),
      Gm.getMethod prop (some (if language = Gm.Lang.auto then
        Gm.detectLanguage l else language)) = none →
      Gm.OBJECT_PROTOTYPE_KEYS.contains prop = true →
      Gm.compute l (if language = Gm.Lang.auto then
        Gm.detectLanguage l else language) = .ok v →
      Proxy.createGematriaProxy l language prop =
        Gm.JsValue.inherited prop) ∧
    (∀ (l : List Char) (prop : String) (language : Gm.Lang),
      Proxy.createGematriaProxy l language prop =
        (Gm.computeValueJs l prop language).toOption.getD
          (Gm.JsValue.num 0)) := by
  refine ⟨?_, ?_, ?_, ?_⟩
  · intro l prop language h
    unfold Proxy.createGematriaProxy
    cases hcv : Gm.computeValueJs l prop language with
    | ok v => rw [hcv] at h; simp [Except.isOk, Except.toBool] at h
    | error e => rfl
  · intro l prop language hres h1 h2 h3 hp
    unfold Proxy.createGematriaProxy Gm.computeValueJs
    dsimp only
    rw [hres]
    cases hc : Gm.compute l (if language = Gm.Lang.auto then
        Gm.detectLanguage l else language) with
    | ok v =>
      unfold Gm.valuesGetJs Gm.valuesGet
      dsimp only
      rw [if_neg h1, if_neg h2, if_neg h3]
      rw [hp]
      rfl
    | error e => rfl
  · intro l prop language v hres hproto hok
    have hm : prop ∈ Gm.OBJECT_PROTOTYPE_KEYS := List.elem_iff.mp hproto
    unfold Proxy.createGematriaProxy Gm.computeValueJs
    dsimp only
    rw [hres, hok]
    simp only [Gm.OBJECT_PROTOTYPE_KEYS, List.mem_cons,
      List.not_mem_nil, or_false] at hm
    rcases hm with rfl | rfl | rfl | rfl | rfl | rfl | rfl | rfl | rfl |
      rfl | rfl | rfl <;> rfl
  · intro l prop language
    unfold Proxy.createGematriaProxy
    cases hcv : Gm.computeValueJs l prop language <;> rfl

/-- Witness for C4: the archaic letter ϛ makes the strict Greek ordinal
throw and the proxy read returns 0; the unresolvable non-inherited name
`nosuch` on Hebrew text reads as 0; the unresolvable inherited name
`toString` reads as the inherited member. -/
theorem silentZero_amended_claim_witness :
    ((Gm.computeValueJs "ϛ".data "ordinal" Gm.Lang.greek).isOk = false ∧
      Proxy.createGematriaProxy "ϛ".data Gm.Lang.greek "ordinal" =
        Gm.JsValue.num 0) ∧
    ((Gm.getMethod "nosuch" (some (if Gm.Lang.hebrew = Gm.Lang.auto then
        Gm.detectLanguage "אב".data else Gm.Lang.hebrew))).isNone = true ∧
      Gm.OBJECT_PROTOTYPE_KEYS.contains "nosuch" = false ∧
      Proxy.createGematriaProxy "אב".data Gm.Lang.hebrew "nosuch" =
        Gm.JsValue.num 0) ∧
    (Gm.OBJECT_PROTOTYPE_KEYS.contains "toString" = true ∧
      Gm.compute "אב".data Gm.Lang.hebrew = .ok ⟨3, 3, 3⟩ ∧
      Proxy.createGematriaProxy "אב".data Gm.Lang.hebrew "toString" =
        Gm.JsValue.inherited "toString") :=
  ⟨⟨by decide,
    silentZero_amended_claim.1 "ϛ".data "ordinal" Gm.Lang.greek (by decide)⟩,
   ⟨by decide, by decide,
    silentZero_amended_claim.2.1 "אב".data "nosuch" Gm.Lang.hebrew
      (Option.isNone_iff_eq_none.mp (by decide)) (by decide) (by decide)
      (by decide) (by decide)⟩,
   ⟨by decide, rfl,
    silentZero_amended_claim.2.2.1 "אב".data "toString" Gm.Lang.hebrew
      ⟨3, 3, 3⟩ (Option.isNone_iff_eq_none.mp (by decide)) (by decide)
      rfl⟩⟩

/-- The verse aggregate, on words whose variant is never skipped, is the sum
of the caught per-word values over the words surviving the colophon rule. -/
theorem computeAggregate_eq (words : List Proxy.Word) (language : Gm.Lang)
    (opts : Proxy.VerseGematriaOptions) (method : String)
    (h : ∀ w ∈ words, Proxy.variantSkipped opts w = false) :
    Proxy.computeAggregate words language opts method =
      ((words.filter (fun w =>
          opts.includeColophons || !Proxy.colophonFlagged w)).map
        (fun w => (Gm.computeValue w.text method language).toOption.getD 0)).sum := by
  suffices haux : ∀ (ws : List Proxy.Word),
      (∀ w ∈ ws, Proxy.variantSkipped opts w = false) → ∀ (a : Int),
      ws.foldl
        (fun total w =>
          if !opts.includeColophons && Proxy.colophonFlagged w then total
          else if Proxy.variantSkipped opts w then total
          else
            match Gm.computeValue w.text method language with
            | .ok n => total + n
            | .error _ => total)
        a =
      a + ((ws.filter (fun w =>
          opts.includeColophons || !Proxy.colophonFlagged w)).map
        (fun w => (Gm.computeValue w.text method language).toOption.getD 0)).sum by
    unfold Proxy.computeAggregate
    rw [haux words h 0, zero_add]
  intro ws
  induction ws with
  | nil => intro _ a; simp
  | cons w rest ih =>
    intro hall a
    have hw := hall w (List.mem_cons_self _ _)
    have hrest := fun x hx => hall x (List.mem_cons_of_mem _ hx)
    rw [List.foldl_cons]
    by_cases hcol : (!opts.includeColophons && Proxy.colophonFlagged w) = true
    · rw [if_pos hcol]
      rw [List.filter_cons_of_neg (by
        revert hcol
        cases opts.includeColophons <;> cases Proxy.colophonFlagged w <;> simp)]
      exact ih hrest a
    · rw [if_neg hcol, if_neg (by simp [hw])]
      rw [List.filter_cons_of_pos (by
        revert hcol
        cases opts.includeColophons <;> cases Proxy.colophonFlagged w <;> simp)]
      rw [List.map_cons, List.sum_cons]
      cases hcv : Gm.computeValue w.text method language with
      | ok n =>
        simp only [hcv]
        rw [ih hrest (a + n)]
        simp [Except.toOption]
        ring
      | error e =>
        simp only [hcv]
        rw [ih hrest a]
        simp [Except.toOption]

/-- C5: over a word collection with no reading-variant tags, the verse-level
aggregate excludes a word exactly when `includeColophons` is false and the
word is flagged as colophon by its explicit flag OR its nested metadata flag
(the aggregate is the sum over the words passing that test), and with
`includeColophons` true no word is excluded at all. -/
theorem colophon_claim (words : List Proxy.Word) (language : Gm.Lang)
    (opts : Proxy.VerseGematriaOptions) (method : String)
    (hvar : ∀ w ∈ words, w.variant = none) :
    (Proxy.computeAggregate words language opts method =
      ((words.filter (fun w =>
          opts.includeColophons || !Proxy.colophonFlagged w)).map
        (fun w => (Gm.computeValue w.text method language).toOption.getD 0)).sum) ∧
    (opts.includeColophons = true →
      Proxy.computeAggregate words language opts method =
        (words.map
          (fun w =>
            (Gm.computeValue w.text method language).toOption.getD 0)).sum) := by
  have hskip : ∀ w ∈ words, Proxy.variantSkipped opts w = false := by
    intro w hw
    unfold Proxy.variantSkipped
    rw [hvar w hw]
  refine ⟨computeAggregate_eq words language opts method hskip, ?_⟩
  intro hic
  rw [computeAggregate_eq words language opts method hskip]
  rw [List.filter_eq_self.mpr (fun a _ => by simp [hic])]

/-- Witness for C5: the spec's scenario, a 3-word verse with words 2 and 3
colophon-flagged (one via the explicit flag, one via nested metadata): the
default aggregate counts only word 1 (ordinal 33), `includeColophons: true`
counts all three (ordinal 194). -/
theorem colophon_claim_witness :
    (∀ w ∈ ([⟨1, "Amen".data, none, none, none⟩,
        ⟨2, "Written".data, some true, none, none⟩,
        ⟨3, "from".data, none, some ⟨some true⟩, none⟩] : List Proxy.Word),
      w.variant = none) ∧
    Proxy.computeAggregate
        [⟨1, "Amen".data, none, none, none⟩,
         ⟨2, "Written".data, some true, none, none⟩,
         ⟨3, "from".data, none, some ⟨some true⟩, none⟩]
        Gm.Lang.english ⟨Proxy.Variant.qere, false⟩ "ordinal" =
      ((([⟨1, "Amen".data, none, none, none⟩,
          ⟨2, "Written".data, some true, none, none⟩,
          ⟨3, "from".data, none, some ⟨some true⟩, none⟩] :
            List Proxy.Word).filter (fun w =>
          false || !Proxy.colophonFlagged w)).map
        (fun w =>
          (Gm.computeValue w.text "ordinal" Gm.Lang.english).toOption.getD
            0)).sum ∧
    Proxy.computeAggregate
        [⟨1, "Amen".data, none, none, none⟩,
         ⟨2, "Written".data, some true, none, none⟩,
         ⟨3, "from".data, none, some ⟨some true⟩, none⟩]
        Gm.Lang.english ⟨Proxy.Variant.qere, false⟩ "ordinal" = 33 ∧
    Proxy.computeAggregate
        [⟨1, "Amen".data, none, none, none⟩,
         ⟨2, "Written".data, some true, none, none⟩,
         ⟨3, "from".data, none, some ⟨some true⟩, none⟩]
        Gm.Lang.english ⟨Proxy.Variant.qere, true⟩ "ordinal" = 194 :=
  ⟨by decide,
   (colophon_claim _ Gm.Lang.english ⟨Proxy.Variant.qere, false⟩ "ordinal"
     (by decide)).1,
   by decide, by decide⟩

/-- The isopsephy ordinal either raises the archaic-letter error or returns
the ordinal sum over the extracted letters. -/
theorem isopsephyOrdinal_shape (l : List Char) (strict : Bool) :
    (∃ msg, Isopsephy.computeOrdinal l strict = .error (.error msg)) ∨
    Isopsephy.computeOrdinal l strict =
      .ok (sumTable Isopsephy.ORDINAL (Isopsephy.extractGreekLetters l)) := by
  unfold Isopsephy.computeOrdinal
  dsimp only
  by_cases hcond :
      (strict && decide
        ((List.filter (fun c => Isopsephy.ARCHAIC_LETTERS.contains c)
          (Isopsephy.extractGreekLetters l)).length > 0)) = true
  · rw [if_pos hcond]
    exact Or.inl ⟨_, rfl⟩
  · rw [if_neg hcond]
    exact Or.inr rfl

/-- C10: every compute function of the core returns a non-negative integer
whenever it returns at all, and characters without an entry in a system's
letter-value table contribute exactly 0 to its sum (inserting such a
character anywhere in the summed letter sequence changes nothing). -/
theorem nonneg_claim :
    (∀ l : List Char, 0 ≤ GematriaHebrew.computeStandard l ∧
      0 ≤ GematriaHebrew.computeOrdinal l ∧
      0 ≤ GematriaHebrew.computeReduced l) ∧
    (∀ l : List Char, 0 ≤ GematriaGreek.computeStandard l ∧
      0 ≤ GematriaGreek.computeReduced l) ∧
    (∀ (l : List Char) (strict : Bool) (v : Int),
      GematriaGreek.computeOrdinal l strict = .ok v → 0 ≤ v) ∧
    (∀ l : List Char, 0 ≤ GematriaEnglish.computeOrdinal l ∧
      0 ≤ GematriaEnglish.computeAgrippa l ∧
      0 ≤ GematriaEnglish.computeWhiteheadGreek l ∧
      0 ≤ GematriaEnglish.computeWhiteheadHebrew l ∧
      0 ≤ GematriaEnglish.computeWhiteheadObjective l ∧
      0 ≤ GematriaEnglish.computeWhiteheadSubjective l ∧
      0 ≤ digitalRoot (GematriaEnglish.computeOrdinal l)) ∧
    (∀ l : List Char, 0 ≤ Isopsephy.computeStandard l ∧
      0 ≤ Isopsephy.computeReduced l) ∧
    (∀ (l : List Char) (strict : Bool) (v : Int),
      Isopsephy.computeOrdinal l strict = .ok v → 0 ≤ v) ∧
    (∀ table ∈ HebrewGematria.SYSTEM_TABLES,
      ∀ (l : List Char) (name : String)
        (opts : HebrewGematria.GematriaOptions),
      0 ≤ (HebrewGematria.computeWithTable l table name opts).value) ∧
    (∀ table ∈ ([GematriaHebrew.HEBREW_STANDARD,
        GematriaHebrew.HEBREW_ORDINAL,
        GematriaGreek.GREEK_VALUES, GematriaGreek.GREEK_ORDINAL,
        Isopsephy.STANDARD, Isopsephy.ORDINAL,
        GematriaEnglish.SIMPLE_ORDINAL, GematriaEnglish.AGRIPPA_LATIN,
        GematriaEnglish.WHITEHEAD_GREEK,
        GematriaEnglish.WHITEHEAD_HEBREW_ENGLISH,
        GematriaEnglish.WHITEHEAD_OBJECTIVE,
        GematriaEnglish.WHITEHEAD_SUBJECTIVE] ++
        HebrewGematria.SYSTEM_TABLES),
      ∀ (l1 l2 : List Char) (c : Char), table.lookup c = none →
        sumTable table (l1 ++ c :: l2) = sumTable table (l1 ++ l2)) := by
  have hH : ∀ p ∈ GematriaHebrew.HEBREW_STANDARD, 0 ≤ p.2 := by decide
  have hHO : ∀ p ∈ GematriaHebrew.HEBREW_ORDINAL, 0 ≤ p.2 := by decide
  have hG : ∀ p ∈ GematriaGreek.GREEK_VALUES, 0 ≤ p.2 := by decide
  have hGO : ∀ p ∈ GematriaGreek.GREEK_ORDINAL, 0 ≤ p.2 := by decide
  have hIS : ∀ p ∈ Isopsephy.STANDARD, 0 ≤ p.2 := by decide
  have hIO : ∀ p ∈ Isopsephy.ORDINAL, 0 ≤ p.2 := by decide
  have hEO : ∀ p ∈ GematriaEnglish.SIMPLE_ORDINAL, 0 ≤ p.2 := by decide
  have hEA : ∀ p ∈ GematriaEnglish.AGRIPPA_LATIN, 0 ≤ p.2 := by decide
  have hWG : ∀ p ∈ GematriaEnglish.WHITEHEAD_GREEK, 0 ≤ p.2 := by decide
  have hWH : ∀ p ∈ GematriaEnglish.WHITEHEAD_HEBREW_ENGLISH, 0 ≤ p.2 := by
    decide
  have hWO : ∀ p ∈ GematriaEnglish.WHITEHEAD_OBJECTIVE, 0 ≤ p.2 := by decide
  have hWS : ∀ p ∈ GematriaEnglish.WHITEHEAD_SUBJECTIVE, 0 ≤ p.2 := by decide
  have hSys : ∀ t ∈ HebrewGematria.SYSTEM_TABLES, ∀ p ∈ t, 0 ≤ p.2 := by
    decide
  refine ⟨?_, ?_, ?_, ?_, ?_, ?_, ?_, ?_⟩
  · intro l
    refine ⟨sumTable_nonneg hH _, sumTable_nonneg hHO _, ?_⟩
    unfold GematriaHebrew.computeReduced
    rw [foldl_add_int]
    rw [zero_add]
    refine List.sum_nonneg ?_
    intro x hx
    obtain ⟨c, _, rfl⟩ := List.mem_map.mp hx
    exact digitalRoot_nonneg (lookup_getD_nonneg hH c)
  · intro l
    exact ⟨sumTable_nonneg hG _,
      digitalRoot_nonneg (sumTable_nonneg hG _)⟩
  · intro l strict v hv
    rcases computeOrdinal_shape l strict with ⟨msg, he⟩ | hok
    · rw [he] at hv
      cases hv
    · rw [hok] at hv
      cases hv
      exact sumTable_nonneg hGO _
  · intro l
    exact ⟨sumTable_nonneg hEO _, sumTable_nonneg hEA _,
      sumTable_nonneg hWG _, sumTable_nonneg hWH _, sumTable_nonneg hWO _,
      sumTable_nonneg hWS _, digitalRoot_nonneg (sumTable_nonneg hEO _)⟩
  · intro l
    exact ⟨sumTable_nonneg hIS _,
      digitalRoot_nonneg (sumTable_nonneg hIS _)⟩
  · intro l strict v hv
    rcases isopsephyOrdinal_shape l strict with ⟨msg, he⟩ | hok
    · rw [he] at hv
      cases hv
    · rw [hok] at hv
      cases hv
      exact sumTable_nonneg hIO _
  · intro table ht l name opts
    have hbase := sumTable_nonneg (hSys table ht)
      (HebrewGematria.extractLetters l)
    unfold HebrewGematria.computeWithTable
    dsimp only
    by_cases h1 : opts.musafi = some HebrewGematria.Musafi.words
    · rw [if_pos h1]
      exact add_nonneg hbase (Int.natCast_nonneg _)
    · rw [if_neg h1]
      by_cases h2 : opts.musafi = some HebrewGematria.Musafi.letters
      · rw [if_pos h2]
        exact add_nonneg hbase (Int.natCast_nonneg _)
      · rw [if_neg h2]
        exact hbase
  · intro table _ l1 l2 c hc
    exact sumTable_insert_unknown table hc l1 l2

/-- Witness for C10: the strict Greek ordinal of λογος succeeds with the
non-negative value 62; Mispar Gadol is one of the nine system tables and its
value on any text is non-negative (here בראשית with musafi letters); the
Latin letter x has no entry in the Hebrew standard table and inserting it
changes nothing. -/
theorem nonneg_claim_witness :
    (0 : Int) ≤ 62 ∧
    0 ≤ (HebrewGematria.computeWithTable "בראשית".data
      HebrewGematria.MISPAR_GADOL "misparGadol"
      ⟨some HebrewGematria.Musafi.letters⟩).value ∧
    sumTable GematriaHebrew.HEBREW_STANDARD ('א' :: 'x' :: ['ב']) =
      sumTable GematriaHebrew.HEBREW_STANDARD ('א' :: ['ב']) :=
  ⟨nonneg_claim.2.2.1 "λογος".data true 62 rfl,
   nonneg_claim.2.2.2.2.2.2.1 HebrewGematria.MISPAR_GADOL
     (by simp [HebrewGematria.SYSTEM_TABLES]) "בראשית".data "misparGadol"
     ⟨some HebrewGematria.Musafi.letters⟩,
   nonneg_claim.2.2.2.2.2.2.2 GematriaHebrew.HEBREW_STANDARD
     (by simp) ['א'] ['ב'] 'x' (by decide)⟩
